import Mathlib

/-!
# Persian calendar utilities

A shallow embedding of `src/utils/persianCalendar.js` and theorems about it.

## Number model

A JavaScript number is modelled by the rational it denotes.  `roundDouble` is
rounding to the nearest double (IEEE 754 binary64, ties to even), and
`numberToString` is ECMAScript `Number::toString`.

The functions whose claims range over every integer are modelled with the
rounding of each arithmetic step: `isPersianLeapYear`,
`persianToJulianDayDouble` and `formatPersianDate`.  The other functions
compute with exact rationals.  Every quantity they compute is an integer or a
half-integer, which doubles represent exactly below `2 ^ 52`, except the
product `(year + 2346) * 0.24219858156` of `persianToJulianDay`, whose factor
is read there as the exact decimal `24219858156 / 10 ^ 11`;
`persianToJulianDayDouble_eq_exact` shows that the exact day count is the one
computed in doubles for every year up to 500000 in absolute value.

Values that the source obtains from `Math.floor`, from a loop counter or from
a `Date` getter are integers and are typed `ℤ`; they are cast back to `ℚ` where
the source mixes them with other numbers.  `undefined` and `NaN` results are
modelled by `none`.

## Platform model

`Date` is the host platform's type, not code of the repository.  A `Date` is
modelled by its local civil fields (what `getFullYear`, `getMonth` and
`getDate` return); `new Date(year, monthIndex, day)` follows ECMAScript
(two-digit years, `MakeDay` normalisation, `TimeClip`), for a local time zone
without offset transitions.
-/

namespace PersianCalendar

/-! ## JavaScript number operations -/

/-- The function `Math.floor`: the greatest integer not above `x`. -/
def mathFloor (x : ℚ) : ℤ := ⌊x⌋

/-- Truncation toward zero (ECMAScript `ToIntegerOrInfinity` on a finite number). -/
def toIntegerOrInfinity (x : ℚ) : ℤ := if 0 ≤ x then ⌊x⌋ else -⌊-x⌋

/-- The remainder operator `%` of JavaScript: `a - b * trunc (a / b)`, which
takes the sign of the dividend.  Every divisor in the source is a non-zero
literal. -/
def jsRem (a b : ℚ) : ℚ := a - b * (toIntegerOrInfinity (a / b) : ℚ)

/-- Array indexing `xs[i]`: `undefined` (here `none`) outside `0 .. length - 1`. -/
def arrayGet (xs : List ℚ) (i : ℤ) : Option ℚ :=
  if 0 ≤ i then xs.get? i.toNat else none

/-! ## Platform model: double-precision numbers -/

/-- Binary logarithm by halving, at most `fuel` times. -/
def log2Fuel : ℕ → ℕ → ℕ
  | 0, _ => 0
  | fuel + 1, n => if 2 ≤ n then log2Fuel fuel (n / 2) + 1 else 0

/-- The integer binary logarithm `⌊log₂ n⌋` of a positive natural number. -/
def natLog2 (n : ℕ) : ℕ := log2Fuel n n

/-- The power `2 ^ e` for an integer exponent. -/
def pow2 (e : ℤ) : ℚ :=
  if 0 ≤ e then ((2 ^ e.toNat : ℕ) : ℚ) else 1 / ((2 ^ (-e).toNat : ℕ) : ℚ)

/-- The binary exponent `e` of a non-zero number: `2 ^ e ≤ |x| < 2 ^ (e + 1)`. -/
def binade (x : ℚ) : ℤ :=
  let e0 : ℤ := (natLog2 x.num.natAbs : ℤ) - (natLog2 x.den : ℤ)
  if pow2 e0 ≤ |x| then e0 else e0 - 1

/-- Rounding to the nearest integer, a tie going to the even one. -/
def roundHalfEven (q : ℚ) : ℤ :=
  let f : ℤ := ⌊q⌋
  let r : ℚ := q - f
  if r < 1 / 2 then f else if 1 / 2 < r then f + 1 else if f % 2 = 0 then f else f + 1

/-- The double nearest to `x` (IEEE 754 binary64, round to nearest, ties to
even): 53 significant bits, and a spacing of `2 ^ (-1074)` below `2 ^ (-1022)`.
Overflow to `Infinity` is not modelled: no value in this file reaches
`2 ^ 1024`. -/
def roundDouble (x : ℚ) : ℚ :=
  if x = 0 then 0
  else
    let ulp : ℚ := pow2 (max (binade x) (-1022) - 52)
    (roundHalfEven (x / ulp) : ℚ) * ulp

/-! ## Platform model: printing a number -/

/-- The power `10 ^ e` for an integer exponent. -/
def pow10 (e : ℤ) : ℚ :=
  if 0 ≤ e then ((10 ^ e.toNat : ℕ) : ℚ) else 1 / ((10 ^ (-e).toNat : ℕ) : ℚ)

/-- The decimal exponent `n` of a positive number: `10 ^ (n - 1) ≤ x < 10 ^ n`. -/
def decimalExponent (x : ℚ) : ℤ :=
  let e0 : ℤ := ((Nat.repr x.num.natAbs).length : ℤ) - ((Nat.repr x.den).length : ℤ)
  if pow10 e0 ≤ x then e0 + 1 else e0

/-- The candidates `(s, n)` with `k` digits for printing the positive double
`x`: those of the two integers next to `x / 10 ^ (n - k)` that have `k` digits
and whose value `s * 10 ^ (n - k)` rounds to `x`, the closer to `x` first (the
even one on a tie); with one digit also `1 * 10 ^ n`. -/
def digitCandidates (x : ℚ) (n : ℤ) (k : ℕ) : List (ℕ × ℤ) :=
  let scale : ℚ := pow10 (n - k)
  let lo : ℕ := (⌊x / scale⌋).toNat
  let hi : ℕ := lo + 1
  let okLo : Bool := decide (roundDouble ((lo : ℚ) * scale) = x)
  let okHi : Bool := decide (hi < 10 ^ k) && decide (roundDouble ((hi : ℚ) * scale) = x)
  let dLo : ℚ := x - (lo : ℚ) * scale
  let dHi : ℚ := (hi : ℚ) * scale - x
  let loFirst : Bool := decide (dLo < dHi) || (decide (dLo = dHi) && decide (lo % 2 = 0))
  let near : List (ℕ × ℤ) := (if okLo then [(lo, n)] else []) ++ (if okHi then [(hi, n)] else [])
  let near : List (ℕ × ℤ) := if loFirst then near else near.reverse
  let up : List (ℕ × ℤ) :=
    if k = 1 ∧ roundDouble (pow10 n) = x then [(1, n + 1)] else []
  near ++ up

/-- The digits `s` and the exponent `n` of ECMAScript `Number::toString` for a
positive double: the fewest digits, from 1 to 17, whose value rounds to `x`. -/
def shortestDigits (x : ℚ) : ℕ × ℤ :=
  let n : ℤ := decimalExponent x
  let found : List (ℕ × ℤ) := (List.range 17).flatMap fun i => digitCandidates x n (i + 1)
  found.headD ((⌊x / pow10 (n - 17)⌋).toNat, n)

/-- A string of `j` zeros. -/
def zeros (j : ℕ) : String := String.mk (List.replicate j '0')

/-- The layout of ECMAScript `Number::toString` for the digits `s` (without
trailing zeros of the value) and the exponent `n`: plain digits when
`-6 < n ≤ 21`, exponent form otherwise. -/
def layoutDigits (s : ℕ) (n : ℤ) : String :=
  let digits : String := Nat.repr s
  let k : ℕ := digits.length
  if (k : ℤ) ≤ n ∧ n ≤ 21 then digits ++ zeros (n - k).toNat
  else if 0 < n ∧ n ≤ 21 then
    String.mk (digits.toList.take n.toNat) ++ "." ++ String.mk (digits.toList.drop n.toNat)
  else if -6 < n ∧ n ≤ 0 then "0." ++ zeros (-n).toNat ++ digits
  else
    let e : ℤ := n - 1
    let exponent : String := (if 0 ≤ e then "+" else "-") ++ Nat.repr e.natAbs
    if k = 1 then digits ++ "e" ++ exponent
    else String.mk (digits.toList.take 1) ++ "." ++ String.mk (digits.toList.drop 1) ++ "e" ++
      exponent

/-- The printing of a positive double.  An integer below `2 ^ 53` prints as its
decimal digits, which is what the rule of `shortestDigits` gives for it; the
first branch states that directly. -/
def positiveToString (x : ℚ) : String :=
  if x.den = 1 ∧ x.num.natAbs < 2 ^ 53 then Nat.repr x.num.natAbs
  else layoutDigits (shortestDigits x).1 (shortestDigits x).2

/-- The conversion of a number to a string in a template literal (ECMAScript
`Number::toString`, radix 10). -/
def numberToString (x : ℚ) : String :=
  if x = 0 then "0"
  else if x < 0 then "-" ++ positiveToString (-x)
  else positiveToString x

/-! ## Platform model: `Date` -/

/-- A valid `Date` value, by its local civil fields: `year` is what
`getFullYear()` returns, `month` what `getMonth()` returns (0 for January) and
`date` what `getDate()` returns. -/
structure JSDate where
  year : ℤ
  month : ℤ
  date : ℤ
deriving DecidableEq, Repr

/-- The method `getFullYear`. -/
def JSDate.getFullYear (d : JSDate) : ℤ := d.year

/-- The method `getMonth` (0-based). -/
def JSDate.getMonth (d : JSDate) : ℤ := d.month

/-- The method `getDate`. -/
def JSDate.getDate (d : JSDate) : ℤ := d.date

/-- ECMAScript `DayFromYear`: the day number (days since 1 January 1970) of
1 January of year `y`. -/
def dayFromYear (y : ℤ) : ℤ :=
  365 * (y - 1970) + (y - 1969) / 4 - (y - 1901) / 100 + (y - 1601) / 400

/-- ECMAScript `InLeapYear`, as a function of the year: 1 in a leap year, else 0. -/
def inLeapYear (y : ℤ) : ℤ :=
  if y % 4 ≠ 0 then 0 else if y % 100 ≠ 0 then 1 else if y % 400 ≠ 0 then 0 else 1

/-- ECMAScript `YearFromTime`, on day numbers: the largest `y` with
`dayFromYear y ≤ day`, found from an estimate that is at most one year off. -/
def yearFromDay (day : ℤ) : ℤ :=
  let y := 1970 + (400 * day) / 146097
  if day < dayFromYear y then y - 1
  else if dayFromYear (y + 1) ≤ day then y + 1
  else y

/-- ECMAScript `DayWithinYear`. -/
def dayWithinYear (day : ℤ) : ℤ := day - dayFromYear (yearFromDay day)

/-- ECMAScript `MonthFromTime`, on day numbers (0 for January). -/
def monthFromDay (day : ℤ) : ℤ :=
  let dwy := dayWithinYear day
  let leap := inLeapYear (yearFromDay day)
  if dwy < 31 then 0
  else if dwy < 59 + leap then 1
  else if dwy < 90 + leap then 2
  else if dwy < 120 + leap then 3
  else if dwy < 151 + leap then 4
  else if dwy < 181 + leap then 5
  else if dwy < 212 + leap then 6
  else if dwy < 243 + leap then 7
  else if dwy < 273 + leap then 8
  else if dwy < 304 + leap then 9
  else if dwy < 334 + leap then 10
  else 11

/-- The day within the year on which month `m` (0-based) starts. -/
def monthStart (m leap : ℤ) : ℤ :=
  if m = 0 then 0
  else if m = 1 then 31
  else if m = 2 then 59 + leap
  else if m = 3 then 90 + leap
  else if m = 4 then 120 + leap
  else if m = 5 then 151 + leap
  else if m = 6 then 181 + leap
  else if m = 7 then 212 + leap
  else if m = 8 then 243 + leap
  else if m = 9 then 273 + leap
  else if m = 10 then 304 + leap
  else 334 + leap

/-- ECMAScript `DateFromTime`, on day numbers. -/
def dateFromDay (day : ℤ) : ℤ :=
  dayWithinYear day - monthStart (monthFromDay day) (inLeapYear (yearFromDay day)) + 1

/-- ECMAScript `MakeDay` on integers: the day number of day `dt` of month `m`
(0-based, any integer) of year `y`, months and days overflowing into the
neighbouring years and months. -/
def makeDay (y m dt : ℤ) : ℤ :=
  let ym := y + m / 12
  let mn := m % 12
  dayFromYear ym + monthStart mn (inLeapYear ym) + dt - 1

/-- The `Date` whose local day number is `day`. -/
def JSDate.ofDay (day : ℤ) : JSDate :=
  ⟨yearFromDay day, monthFromDay day, dateFromDay day⟩

/-- The constructor `new Date(year, monthIndex, day)`: a year from 0 to 99
means 1900 + year, the day is truncated toward zero, and a date more than
100,000,000 days from 1 January 1970 is an Invalid Date (`none`). -/
def newDate (year monthIndex : ℤ) (day : ℚ) : Option JSDate :=
  let yr := if 0 ≤ year ∧ year ≤ 99 then 1900 + year else year
  let n := makeDay yr monthIndex (toIntegerOrInfinity day)
  if -100000000 ≤ n ∧ n ≤ 100000000 then some (JSDate.ofDay n) else none

/-! ## The source: constants -/

/-- Julian day number of 1 Farvardin 1 AP. -/
def PERSIAN_EPOCH : ℚ := 19483205 / 10

/-- Julian day number of 1 January 1 AD. -/
def GREGORIAN_EPOCH : ℚ := 17214255 / 10

/-- Persian month lengths in leap and non-leap years. -/
def PERSIAN_MONTH_LENGTHS : List ℚ :=
  [31, 31, 31, 31, 31, 31, 30, 30, 30, 30, 30, 30]

/-- The literal `0.24219858156`, read as an exact decimal. -/
def leapFraction : ℚ := 24219858156 / 100000000000

/-- The literal `0.24219858156` as the engine reads it: the nearest double. -/
def leapFractionDouble : ℚ := roundDouble leapFraction

/-! ## The source: functions -/

/-- Check if a Persian year is a leap year.  The sum and the product are
rounded to doubles, as the engine computes them. -/
def isPersianLeapYear (persianYear : ℤ) : Bool :=
  let a : ℚ := roundDouble (roundDouble ((persianYear : ℚ) + 2346) * leapFractionDouble)
  decide ((mathFloor a : ℚ) = a)

/-- Get the number of days in a Persian month. -/
def getPersianMonthLength (persianYear persianMonth : ℤ) : Option ℚ :=
  if persianMonth = 12 ∧ isPersianLeapYear persianYear = true then
    some 30
  else
    arrayGet PERSIAN_MONTH_LENGTHS (persianMonth - 1)

/-- Check if a Gregorian year is a leap year. -/
def isGregorianLeapYear (year : ℤ) : Bool :=
  (decide (jsRem year 4 = 0) && decide (jsRem year 100 ≠ 0)) || decide (jsRem year 400 = 0)

/-- Convert Gregorian date to Julian day number. -/
def gregorianToJulianDay (date : JSDate) : ℚ :=
  let year : ℤ := date.getFullYear
  let month : ℤ := date.getMonth + 1
  let day : ℤ := date.getDate
  let jd : ℚ := GREGORIAN_EPOCH - 1
  let jd : ℚ := jd + 365 * ((year : ℚ) - 1)
  let jd : ℚ := jd + mathFloor (((year : ℚ) - 1) / 4)
  let jd : ℚ := jd - mathFloor (((year : ℚ) - 1) / 100)
  let jd : ℚ := jd + mathFloor (((year : ℚ) - 1) / 400)
  let jd : ℚ := jd + mathFloor ((367 * (month : ℚ) - 362) / 12)
  let jd : ℚ := if month > 2 then jd - (if isGregorianLeapYear year then 1 else 2) else jd
  jd + day

/-- The loop `for (let i = 1; i < month; i++) jd += getPersianMonthLength(year, i)`
of `persianToJulianDay`; `none` when a month length is `undefined`. -/
def addMonthLengths (year month : ℤ) (jd : ℚ) : Option ℚ :=
  (List.range (month - 1).toNat).foldlM
    (fun acc k => (getPersianMonthLength year ((k : ℤ) + 1)).map fun len => acc + len) jd

/-- Convert Persian date to Julian day number. -/
def persianToJulianDay (year month : ℤ) (day : ℚ) : Option ℚ :=
  let jd : ℚ := PERSIAN_EPOCH - 1
  let jd : ℚ := jd + 365 * ((year : ℚ) - 1)
  let jd : ℚ := jd + mathFloor (((year : ℚ) + 2346) * leapFraction)
  (addMonthLengths year month jd).map fun jd => jd + day

/-- The leap-day term `Math.floor((year + 2346) * 0.24219858156)` of
`persianToJulianDay`, with the sum and the product rounded to doubles. -/
def leapTermDouble (year : ℤ) : ℤ :=
  mathFloor (roundDouble (roundDouble ((year : ℚ) + 2346) * leapFractionDouble))

/-- The month loop of `persianToJulianDay` with every sum rounded to a double. -/
def addMonthLengthsDouble (year month : ℤ) (jd : ℚ) : Option ℚ :=
  (List.range (month - 1).toNat).foldlM
    (fun (acc : ℚ) (k : ℕ) =>
      (getPersianMonthLength year ((k : ℤ) + 1)).map fun len => roundDouble (acc + len)) jd

/-- Convert Persian date to Julian day number, as the engine computes it: the
same steps as `persianToJulianDay`, each arithmetic result rounded to the
nearest double.  The arguments are doubles. -/
def persianToJulianDayDouble (year month : ℤ) (day : ℚ) : Option ℚ :=
  let jd : ℚ := roundDouble (PERSIAN_EPOCH - 1)
  let jd : ℚ := roundDouble (jd + roundDouble (365 * roundDouble ((year : ℚ) - 1)))
  let jd : ℚ := roundDouble (jd + leapTermDouble year)
  (addMonthLengthsDouble year month jd).map fun jd => roundDouble (jd + day)

/-- A Persian date object `{year, month, day}`. -/
structure PersianDate where
  year : ℤ
  month : ℤ
  day : ℚ
deriving DecidableEq, Repr

/-- The month walks of `julianDayToPersian`: at most `n` times, while
`day > bound`, subtract the length of the current month and step to the next. -/
def monthWalk (year : ℤ) (bound : ℚ) : ℕ → ℤ → ℚ → Option (ℤ × ℚ)
  | 0, month, day => some (month, day)
  | n + 1, month, day =>
    if day > bound then
      (getPersianMonthLength year month).bind fun len =>
        monthWalk year bound n (month + 1) (day - len)
    else some (month, day)

/-- Convert Julian day number to Persian date. -/
def julianDayToPersian (jd : ℚ) : Option PersianDate :=
  let jd : ℚ := (mathFloor jd : ℚ) + 1 / 2
  let depoch : ℚ := jd - PERSIAN_EPOCH
  let cycle : ℤ := mathFloor (depoch / 1029983)
  let cyear : ℚ := jsRem depoch 1029983
  let ycycle : ℤ :=
    if cyear = 1029982 then 2820
    else
      let aux : ℤ := mathFloor (cyear / 366)
      let aux2 : ℚ := jsRem cyear 366
      mathFloor ((2134 * (aux : ℚ) + 2816 * aux2 + 2815) / 1028522) + aux + 1
  let year : ℤ := ycycle + 2820 * cycle + 1
  (persianToJulianDay year 1 1).bind fun jd1 =>
    let yday : ℚ := jd - jd1 + 1
    (monthWalk year 31 6 1 yday).bind fun md =>
      (monthWalk year 30 6 md.1 md.2).map fun md => ⟨year, md.1, md.2⟩

/-- Convert Julian day number to Gregorian date. -/
def julianDayToGregorian (jd : ℚ) : Option JSDate :=
  let jd : ℚ := (mathFloor (jd - 1 / 2) : ℚ) + 1 / 2
  let depoch : ℚ := jd - GREGORIAN_EPOCH
  let quadricent : ℤ := mathFloor (depoch / 146097)
  let dqc : ℚ := jsRem depoch 146097
  let cent : ℤ := mathFloor (dqc / 36524)
  let dqc2 : ℚ := jsRem dqc 36524
  let quad : ℤ := mathFloor (dqc2 / 1461)
  let dquad : ℚ := jsRem dqc2 1461
  let yindex : ℤ := mathFloor (dquad / 365)
  let year : ℤ := quadricent * 400 + cent * 100 + quad * 4 + yindex
  let year : ℤ := if ¬ (cent = 4 ∨ yindex = 4) then year + 1 else year
  (newDate year 0 1).bind fun jan1 =>
    let yearday : ℚ := jd - gregorianToJulianDay jan1
    let beforeMarch : Bool :=
      match newDate year 2 1 with
      | some mar1 => decide (jd < gregorianToJulianDay mar1)
      | none => false
    let leapadj : ℚ :=
      if beforeMarch then 0 else if isGregorianLeapYear year then 1 else 2
    let month : ℤ := mathFloor (((yearday + leapadj) * 12 + 373) / 367)
    (newDate year (month - 1) 1).bind fun first =>
      let day : ℚ := yearday - gregorianToJulianDay first + 1
      newDate year (month - 1) day

/-- Convert Gregorian date to Persian date. -/
def gregorianToPersian (gregorianDate : JSDate) : Option PersianDate :=
  julianDayToPersian (gregorianToJulianDay gregorianDate)

/-- Convert Persian date to Gregorian date. -/
def persianToGregorian (persianYear persianMonth : ℤ) (persianDay : ℚ) : Option JSDate :=
  (persianToJulianDay persianYear persianMonth persianDay).bind julianDayToGregorian

/-- The error taxonomy of the specification.  The source never raises an
error: `createPersianDate` has no failing path. -/
inductive DateError where
  | invalidDateComponent
  | clockUnavailable
deriving DecidableEq, Repr

/-- Create a Persian date object.  The result is `Except.ok` on every input:
the body of the source function is `return { year, month, day }`. -/
def createPersianDate (year month : ℤ) (day : ℚ) : Except DateError PersianDate :=
  Except.ok ⟨year, month, day⟩

/-! ## Valid dates -/

/-- Number of days of month `month` (0-based) of the Gregorian year `year`. -/
def gregorianMonthLength (year month : ℤ) : ℤ :=
  if month = 1 then 28 + inLeapYear year
  else if month = 3 ∨ month = 5 ∨ month = 8 ∨ month = 10 then 30
  else 31

/-- A valid Gregorian civil date: month index in `0 .. 11` and a day valid for
that month and year. -/
def JSDate.IsCivil (d : JSDate) : Prop :=
  0 ≤ d.month ∧ d.month ≤ 11 ∧ 1 ≤ d.date ∧ d.date ≤ gregorianMonthLength d.year d.month

instance (d : JSDate) : Decidable d.IsCivil := by
  unfold JSDate.IsCivil
  infer_instance

/-- A well-formed Persian date: month in `1 .. 12`, an integer day with
`1 ≤ day ≤ getPersianMonthLength year month`. -/
def PersianDate.IsValid (p : PersianDate) : Prop :=
  1 ≤ p.month ∧ p.month ≤ 12 ∧ (∃ n : ℤ, p.day = n) ∧ 1 ≤ p.day ∧
    ∃ len, getPersianMonthLength p.year p.month = some len ∧ p.day ≤ len

/-! ## Definitions used to state the claims -/

/-- Days of the Persian year before month `m` starts, with the month lengths the
source uses (six months of 31 days, then months of 30 days). -/
def monthOffset (m : ℤ) : ℚ := if m ≤ 7 then 31 * ((m : ℚ) - 1) else 186 + 30 * ((m : ℚ) - 7)

/-- The part of `persianToJulianDay` that depends on the year only. -/
def yearBase (year : ℤ) : ℚ :=
  PERSIAN_EPOCH - 1 + 365 * ((year : ℚ) - 1) + mathFloor (((year : ℚ) + 2346) * leapFraction)

/-- The value `depoch` of `julianDayToPersian` (lines 92 and 94 of the source). -/
def persianDepoch (jd : ℚ) : ℚ := ((mathFloor jd : ℚ) + 1 / 2) - PERSIAN_EPOCH

/-- The value `cycle` of `julianDayToPersian` (line 95 of the source). -/
def persianCycle (jd : ℚ) : ℤ := mathFloor (persianDepoch jd / 1029983)

/-- The value `cyear` of `julianDayToPersian` (line 96 of the source). -/
def persianCyear (jd : ℚ) : ℚ := jsRem (persianDepoch jd) 1029983

/-- The calendar successor of a civil date: the next day of the month, or day 1
of the next month after the last day of the month, or 1 January of the next
year after 31 December. -/
def JSDate.succ (d : JSDate) : JSDate :=
  if d.date < gregorianMonthLength d.year d.month then ⟨d.year, d.month, d.date + 1⟩
  else if d.month < 11 then ⟨d.year, d.month + 1, 1⟩
  else ⟨d.year + 1, 0, 1⟩

/-- Calendar order on civil dates: by year, then month, then day. -/
def JSDate.Before (d e : JSDate) : Prop :=
  d.year < e.year ∨ (d.year = e.year ∧
    (d.month < e.month ∨ (d.month = e.month ∧ d.date < e.date)))

/-- The fixed ordered table of the 12 Persian month names of `formatPersianDate`. -/
def monthNames : List String :=
  ["فروردین", "اردیبهشت", "خرداد", "تیر", "مرداد", "شهریور", "مهر", "آبان", "آذر", "دی", "بهمن", "اسفند"]

/-- Array indexing `xs[i]` on strings: `undefined` (here `none`) outside
`0 .. length - 1`. -/
def arrayGetString (xs : List String) (i : ℤ) : Option String :=
  if 0 ≤ i then xs.get? i.toNat else none

/-- Format Persian date to string.  The second argument is `none` when the
caller omits the format, which then defaults to `long`. -/
def formatPersianDate (persianDate : PersianDate) (format : Option String) : String :=
  let format : String := format.getD "long"
  let year : String := numberToString persianDate.year
  let month : String := numberToString persianDate.month
  let day : String := numberToString persianDate.day
  let monthName : String :=
    (arrayGetString monthNames (persianDate.month - 1)).getD "undefined"
  if format = "short" then
    day ++ " " ++ monthName ++ " " ++ year
  else if format = "numeric" then
    year ++ "/" ++ month ++ "/" ++ day
  else
    day ++ " " ++ monthName ++ " " ++ year

/-! ## The platform model meets the ECMAScript definitions -/

theorem dayFromYear_succ (y : ℤ) :
    dayFromYear (y + 1) = dayFromYear y + 365 + inLeapYear y := by
  unfold dayFromYear inLeapYear
  split_ifs <;> omega

theorem dayFromYear_mono (a b : ℤ) (hab : a ≤ b) : dayFromYear a ≤ dayFromYear b := by
  unfold dayFromYear
  omega

theorem inLeapYear_range (y : ℤ) : 0 ≤ inLeapYear y ∧ inLeapYear y ≤ 1 := by
  unfold inLeapYear
  split_ifs <;> omega

/-- The year found by `yearFromDay` contains the day. -/
theorem yearFromDay_spec (day : ℤ) :
    dayFromYear (yearFromDay day) ≤ day ∧ day < dayFromYear (yearFromDay day + 1) := by
  unfold yearFromDay
  simp only []
  split_ifs with h1 h2
  · rw [sub_add_cancel]
    unfold dayFromYear at *
    constructor <;> omega
  · unfold dayFromYear at *
    constructor <;> omega
  · unfold dayFromYear at *
    constructor <;> omega

/-- The year of a day is the only year that contains it. -/
theorem yearFromDay_unique (day y : ℤ) (h1 : dayFromYear y ≤ day)
    (h2 : day < dayFromYear (y + 1)) : yearFromDay day = y := by
  have hs := yearFromDay_spec day
  by_contra hne
  rcases lt_or_gt_of_ne hne with h | h
  · have := dayFromYear_mono (yearFromDay day + 1) y (by omega)
    omega
  · have := dayFromYear_mono (y + 1) (yearFromDay day) (by omega)
    omega

theorem makeDay_eq (y m dt : ℤ) (h0 : 0 ≤ m) (h11 : m ≤ 11) :
    makeDay y m dt = dayFromYear y + monthStart m (inLeapYear y) + dt - 1 := by
  have hdiv : m / 12 = 0 := by omega
  have hmod : m % 12 = m := by omega
  unfold makeDay
  rw [hdiv, hmod, add_zero]

theorem monthStart_bounds (y m dt : ℤ) (h0 : 0 ≤ m) (h11 : m ≤ 11) (hd1 : 1 ≤ dt)
    (hd2 : dt ≤ gregorianMonthLength y m) :
    0 ≤ monthStart m (inLeapYear y) + dt - 1 ∧
      monthStart m (inLeapYear y) + dt - 1 < 365 + inLeapYear y := by
  have hl := inLeapYear_range y
  unfold gregorianMonthLength at hd2
  unfold monthStart
  interval_cases m <;> simp at hd2 ⊢ <;> omega

/-- Reading the fields of the day number of a valid civil date gives that date
back: the getters invert `MakeDay`. -/
theorem ofDay_makeDay (d : JSDate) (h : d.IsCivil) :
    JSDate.ofDay (makeDay d.year d.month d.date) = d := by
  obtain ⟨y, m, dt⟩ := d
  obtain ⟨h0, h11, hd1, hd2⟩ := h
  simp only at h0 h11 hd1 hd2
  have hl := inLeapYear_range y
  have hb := monthStart_bounds y m dt h0 h11 hd1 hd2
  have hsucc := dayFromYear_succ y
  have hmk := makeDay_eq y m dt h0 h11
  have hyear : yearFromDay (makeDay y m dt) = y := by
    apply yearFromDay_unique <;> omega
  have hdwy : dayWithinYear (makeDay y m dt) = monthStart m (inLeapYear y) + dt - 1 := by
    unfold dayWithinYear
    rw [hyear]
    omega
  have hmonth : monthFromDay (makeDay y m dt) = m := by
    unfold monthFromDay
    simp only [hdwy, hyear]
    unfold monthStart
    unfold gregorianMonthLength at hd2
    interval_cases m <;> simp at hd2 ⊢ <;> omega
  unfold JSDate.ofDay dateFromDay
  rw [hmonth, hyear, hdwy]
  simp only [JSDate.mk.injEq, true_and]
  omega

/-! ## Month lengths -/

theorem getPersianMonthLength_of_le_eleven (year m : ℤ) (h1 : 1 ≤ m) (h11 : m ≤ 11) :
    getPersianMonthLength year m = some (if m ≤ 6 then 31 else 30) := by
  have hne : ¬ (m = 12 ∧ isPersianLeapYear year = true) := by omega
  unfold getPersianMonthLength
  rw [if_neg hne]
  interval_cases m <;> rfl

theorem getPersianMonthLength_twelve (year : ℤ) :
    getPersianMonthLength year 12 = some 30 := by
  unfold getPersianMonthLength
  split_ifs
  · rfl
  · rfl

/-- Every month from 1 to 12 has a length: the lookup is never `undefined`
there. -/
theorem getPersianMonthLength_isSome (year m : ℤ) (h1 : 1 ≤ m) (h12 : m ≤ 12) :
    ∃ len, getPersianMonthLength year m = some len := by
  rcases lt_or_eq_of_le h12 with h | h
  · exact ⟨_, getPersianMonthLength_of_le_eleven year m h1 (by omega)⟩
  · subst h
    exact ⟨_, getPersianMonthLength_twelve year⟩

/-! ## The Persian conversions return a value -/

theorem monthWalk_isSome (year : ℤ) (bound : ℚ) (n : ℕ) :
    ∀ (month : ℤ) (day : ℚ), 1 ≤ month → month + n ≤ 13 →
      ∃ m d, monthWalk year bound n month day = some (m, d) ∧ month ≤ m ∧ m ≤ month + n := by
  induction n with
  | zero =>
    intro month day _ _
    exact ⟨month, day, rfl, le_refl _, by simp⟩
  | succ k ih =>
    intro month day h1 h13
    push_cast at h13
    unfold monthWalk
    split_ifs with hgt
    · obtain ⟨len, hlen⟩ := getPersianMonthLength_isSome year month h1 (by omega)
      obtain ⟨m, d, hmd, hlo, hhi⟩ := ih (month + 1) (day - len) (by omega) (by omega)
      refine ⟨m, d, ?_, by omega, by push_cast; omega⟩
      rw [hlen]
      exact hmd
    · exact ⟨month, day, rfl, le_refl _, by push_cast; omega⟩

theorem persianToJulianDay_first (year : ℤ) (day : ℚ) :
    persianToJulianDay year 1 day =
      some (PERSIAN_EPOCH - 1 + 365 * ((year : ℚ) - 1) +
        mathFloor (((year : ℚ) + 2346) * leapFraction) + day) := by
  simp [persianToJulianDay, addMonthLengths]

theorem monthWalks_isSome (year : ℤ) (yday : ℚ) :
    ∃ p : PersianDate, ((monthWalk year 31 6 1 yday).bind fun md =>
      (monthWalk year 30 6 md.1 md.2).map fun md => (⟨year, md.1, md.2⟩ : PersianDate)) =
        some p := by
  obtain ⟨m, d, h, hlo, hhi⟩ := monthWalk_isSome year 31 6 1 yday (by norm_num) (by norm_num)
  obtain ⟨m2, d2, h2, -, -⟩ :=
    monthWalk_isSome year 30 6 m d (by omega) (by push_cast at hhi ⊢; omega)
  rw [h]
  simp only [Option.some_bind, h2, Option.map_some']
  exact ⟨_, rfl⟩

/-- The conversion `julianDayToPersian` returns a date for every day count:
no month length it looks up is `undefined`. -/
theorem julianDayToPersian_isSome (jd : ℚ) : ∃ p, julianDayToPersian jd = some p := by
  unfold julianDayToPersian
  simp only [persianToJulianDay_first, Option.some_bind]
  exact monthWalks_isSome _ _

/-- On a valid civil date within the `Date` range whose year is not a
two-digit year, `new Date(year, monthIndex, day)` is that date. -/
theorem newDate_of_isCivil (d : JSDate) (h : d.IsCivil) (hy : d.year < 0 ∨ 99 < d.year)
    (hlo : -100000000 ≤ makeDay d.year d.month d.date)
    (hhi : makeDay d.year d.month d.date ≤ 100000000) :
    newDate d.year d.month d.date = some d := by
  have hyr : ¬ (0 ≤ d.year ∧ d.year ≤ 99) := by omega
  have ht : toIntegerOrInfinity (d.date : ℚ) = d.date := by
    unfold toIntegerOrInfinity
    split_ifs
    · exact Int.floor_intCast _
    · rw [← Int.cast_neg, Int.floor_intCast, neg_neg]
  unfold newDate
  simp only [if_neg hyr, ht, hlo, hhi, and_self, if_true, ofDay_makeDay d h]

/-! ## Claims -/

/-- C7: for every integer year, `getPersianMonthLength year m` is 31 for every
month `m` from 1 to 6 and 30 for every month `m` from 7 to 11, whatever the
leap status of the year. -/
theorem getPersianMonthLength_fixed (year m : ℤ) :
    (1 ≤ m ∧ m ≤ 6 → getPersianMonthLength year m = some 31) ∧
      (7 ≤ m ∧ m ≤ 11 → getPersianMonthLength year m = some 30) := by
  constructor
  · rintro ⟨h1, h6⟩
    rw [getPersianMonthLength_of_le_eleven year m h1 (by omega), if_pos h6]
  · rintro ⟨h7, h11⟩
    rw [getPersianMonthLength_of_le_eleven year m (by omega) h11, if_neg (by omega)]

/-- C7 at year 1402: month 3 has 31 days and month 9 has 30 days. -/
theorem getPersianMonthLength_fixed_witness :
    getPersianMonthLength 1402 3 = some 31 ∧ getPersianMonthLength 1402 9 = some 30 :=
  ⟨(getPersianMonthLength_fixed 1402 3).1 ⟨by decide, by decide⟩,
    (getPersianMonthLength_fixed 1402 9).2 ⟨by decide, by decide⟩⟩

/-- C6 fails on the code: year 1402 is not a leap year for `isPersianLeapYear`,
yet `getPersianMonthLength 1402 12` is 30, not 29, because the twelfth entry of
`PERSIAN_MONTH_LENGTHS` is 30. -/
theorem getPersianMonthLength_twelve_of_1402 :
    isPersianLeapYear 1402 = false ∧ getPersianMonthLength 1402 12 = some 30 ∧
      getPersianMonthLength 1402 12 ≠ some 29 := by
  decide!

/-- C8 as stated fails: `createPersianDate 1402 13 1` and
`createPersianDate 1402 12 31` return a value and raise no error. -/
theorem createPersianDate_returns_invalid :
    createPersianDate 1402 13 1 = Except.ok ⟨1402, 13, 1⟩ ∧
      createPersianDate 1402 12 31 = Except.ok ⟨1402, 12, 31⟩ ∧
      createPersianDate 1402 13 1 ≠ Except.error DateError.invalidDateComponent ∧
      createPersianDate 1402 12 31 ≠ Except.error DateError.invalidDateComponent := by
  refine ⟨rfl, rfl, ?_, ?_⟩ <;> simp [createPersianDate]

/-- C8, amended: `createPersianDate year month day` never fails; for every
input it returns the date `{year, month, day}` unchanged, without checking the
month or the day. -/
theorem createPersianDate_total (year month : ℤ) (day : ℚ) :
    createPersianDate year month day = Except.ok ⟨year, month, day⟩ ∧
      ∀ e, createPersianDate year month day ≠ Except.error e := by
  refine ⟨rfl, ?_⟩
  intro e
  simp [createPersianDate]

/-- C9 fails on the code: `persianToJulianDay 1 1 1` is 1948888.5, which is 568
days after `PERSIAN_EPOCH` (1948320.5), because the leap term
`Math.floor((1 + 2346) * 0.24219858156)` is 568 and not 0. -/
theorem persianToJulianDay_epoch :
    persianToJulianDay 1 1 1 = some (3897777 / 2) ∧
      persianToJulianDay 1 1 1 ≠ some PERSIAN_EPOCH ∧
      mathFloor (((1 : ℤ) + 2346 : ℚ) * leapFraction) = 568 := by
  decide!

/-- C10: `gregorianToJulianDay` of 1 January of year 1 is 1721425.5, the
constant `GREGORIAN_EPOCH`. -/
theorem gregorianToJulianDay_epoch :
    gregorianToJulianDay ⟨1, 0, 1⟩ = 17214255 / 10 ∧
      gregorianToJulianDay ⟨1, 0, 1⟩ = GREGORIAN_EPOCH := by
  decide!

/-- C3 fails on the code: (1402, 1, 1) is a valid Persian date, its day count
is 2460592.5, and `julianDayToPersian` maps that back to (1404, 1, -730). -/
theorem julianDayToPersian_persianToJulianDay_1402 :
    PersianDate.IsValid ⟨1402, 1, 1⟩ ∧
      persianToJulianDay 1402 1 1 = some (4921185 / 2) ∧
      julianDayToPersian (4921185 / 2) = some ⟨1404, 1, -730⟩ := by
  refine ⟨⟨by decide, by decide, ⟨1, by norm_num⟩, by norm_num, 31, by decide!, by norm_num⟩,
    by decide!, by decide!⟩

/-- C4 fails on the code: 1 January 2024 has day count 2460310.5, and
`julianDayToGregorian` maps that to 25 November of year -4713. -/
theorem julianDayToGregorian_gregorianToJulianDay_2024 :
    JSDate.IsCivil ⟨2024, 0, 1⟩ ∧
      gregorianToJulianDay ⟨2024, 0, 1⟩ = 4920621 / 2 ∧
      julianDayToGregorian (gregorianToJulianDay ⟨2024, 0, 1⟩) = some ⟨-4713, 10, 25⟩ := by
  decide!

/-- C5 fails on the code: for 21 March 2023 `gregorianToPersian` returns
(1403, 1, -933), whose day is below 1. -/
theorem gregorianToPersian_2023 :
    JSDate.IsCivil ⟨2023, 2, 21⟩ ∧
      gregorianToPersian ⟨2023, 2, 21⟩ = some ⟨1403, 1, -933⟩ ∧
      ¬ PersianDate.IsValid ⟨1403, 1, -933⟩ := by
  refine ⟨by decide!, by decide!, ?_⟩
  rintro ⟨-, -, -, h, -⟩
  norm_num at h

/-- C1 fails on the code: the valid Persian date (1402, 1, 1) is sent by
`persianToGregorian` to 2 September of year -4712, which `gregorianToPersian`
sends to (-8153, 13, 1029214). -/
theorem gregorianToPersian_persianToGregorian_1402 :
    PersianDate.IsValid ⟨1402, 1, 1⟩ ∧
      persianToGregorian 1402 1 1 = some ⟨-4712, 8, 2⟩ ∧
      gregorianToPersian ⟨-4712, 8, 2⟩ = some ⟨-8153, 13, 1029214⟩ := by
  refine ⟨⟨by decide, by decide, ⟨1, by norm_num⟩, by norm_num, 31, by decide!, by norm_num⟩,
    by decide!, by decide!⟩

/-- C2 fails on the code: 21 March 2023 is sent by `gregorianToPersian` to
(1403, 1, -933), which `persianToGregorian` sends to 12 February of year
-4712. -/
theorem persianToGregorian_gregorianToPersian_2023 :
    JSDate.IsCivil ⟨2023, 2, 21⟩ ∧
      gregorianToPersian ⟨2023, 2, 21⟩ = some ⟨1403, 1, -933⟩ ∧
      persianToGregorian 1403 1 (-933) = some ⟨-4712, 1, 12⟩ := by
  decide!

/-! ## Day counts, leap years and formatting -/

theorem getPersianMonthLength_eq (year m : ℤ) (h1 : 1 ≤ m) (h12 : m ≤ 12) :
    getPersianMonthLength year m = some (if m ≤ 6 then 31 else 30) := by
  rcases lt_or_eq_of_le h12 with h | h
  · exact getPersianMonthLength_of_le_eleven year m h1 (by omega)
  · subst h
    exact getPersianMonthLength_twelve year

theorem addMonthLengths_eq (year m : ℤ) (jd : ℚ) (h1 : 1 ≤ m) (h13 : m ≤ 13) :
    addMonthLengths year m jd = some (jd + monthOffset m) := by
  have len : ∀ k : ℤ, 1 ≤ k → k ≤ 12 →
      getPersianMonthLength year k = some (if k ≤ 6 then 31 else 30) :=
    fun k hk1 hk12 => getPersianMonthLength_eq year k hk1 hk12
  interval_cases m <;>
    simp [addMonthLengths, monthOffset, List.range_succ, len] <;> ring

theorem persianToJulianDay_eq (year m : ℤ) (day : ℚ) (h1 : 1 ≤ m) (h13 : m ≤ 13) :
    persianToJulianDay year m day = some (yearBase year + monthOffset m + day) := by
  unfold persianToJulianDay
  simp only [addMonthLengths_eq year m _ h1 h13, Option.map_some']
  rfl

theorem monthOffset_succ (year m : ℤ) (h1 : 1 ≤ m) (h12 : m ≤ 12) :
    ∃ len, getPersianMonthLength year m = some len ∧
      monthOffset (m + 1) = monthOffset m + len := by
  refine ⟨_, getPersianMonthLength_eq year m h1 h12, ?_⟩
  interval_cases m <;> norm_num [monthOffset]

/-- The month-boundary part of the continuity claim: for a month from 1 to 11,
the day after the last day of the month is day 1 of the next month. -/
theorem persianToJulianDay_month_boundary (year month : ℤ) (h1 : 1 ≤ month) (h11 : month ≤ 11) :
    ∃ len jd, getPersianMonthLength year month = some len ∧
      persianToJulianDay year month len = some jd ∧
      persianToJulianDay year (month + 1) 1 = some (jd + 1) := by
  obtain ⟨len, hlen, hoff⟩ := monthOffset_succ year month h1 (by omega)
  refine ⟨len, _, hlen, persianToJulianDay_eq year month len h1 (by omega), ?_⟩
  rw [persianToJulianDay_eq year (month + 1) _ (by omega) (by omega), hoff]
  congr 1
  ring

/-- C12 fails on the code at the year boundary: month 12 of year 1403 has 30
days for `getPersianMonthLength`, and the last day 1403/12/30 gets the same day
count, 2461323.5, as 1404/1/1, not one less. -/
theorem persianToJulianDay_year_boundary_1403 :
    getPersianMonthLength 1403 12 = some 30 ∧
      persianToJulianDay 1403 12 30 = some (4922647 / 2) ∧
      persianToJulianDay 1404 1 1 = some (4922647 / 2) ∧
      persianToJulianDay 1404 1 1 ≠ some (4922647 / 2 + 1) := by
  decide!

/-- C16 fails on the code: year 1402 is 366 days long in the day count
(`persianToJulianDay 1403 1 1` minus `persianToJulianDay 1402 1 1`), while
`isPersianLeapYear 1402` is false. -/
theorem persianYearLength_1402 :
    persianToJulianDay 1402 1 1 = some (4921185 / 2) ∧
      persianToJulianDay 1403 1 1 = some (4921917 / 2) ∧
      (4921917 / 2 : ℚ) - 4921185 / 2 = 366 ∧
      isPersianLeapYear 1402 = false := by
  decide!

theorem monthWalk_offset (year : ℤ) (bound : ℚ) (n : ℕ) :
    ∀ (month : ℤ) (day : ℚ) (m : ℤ) (d : ℚ), 1 ≤ month → month + n ≤ 13 →
      monthWalk year bound n month day = some (m, d) →
        month ≤ m ∧ m ≤ month + n ∧ monthOffset m + d = monthOffset month + day := by
  induction n with
  | zero =>
    intro month day m d _ _ h
    simp only [monthWalk, Option.some.injEq, Prod.mk.injEq] at h
    obtain ⟨rfl, rfl⟩ := h
    exact ⟨le_refl _, by simp, rfl⟩
  | succ k ih =>
    intro month day m d h1 h13 h
    push_cast at h13
    unfold monthWalk at h
    split_ifs at h with hgt
    · obtain ⟨len, hlen, hoff⟩ := monthOffset_succ year month h1 (by omega)
      rw [hlen] at h
      obtain ⟨hlo, hhi, hsum⟩ := ih (month + 1) (day - len) m d (by omega) (by omega) h
      refine ⟨by omega, by push_cast; omega, ?_⟩
      rw [hsum, hoff]
      ring
    · simp only [Option.some.injEq, Prod.mk.injEq] at h
      obtain ⟨rfl, rfl⟩ := h
      exact ⟨le_refl _, by push_cast; omega, rfl⟩

theorem monthWalks_offset (year : ℤ) (yday : ℚ) (p : PersianDate)
    (h : ((monthWalk year 31 6 1 yday).bind fun md =>
      (monthWalk year 30 6 md.1 md.2).map fun md => (⟨year, md.1, md.2⟩ : PersianDate)) =
        some p) :
    p.year = year ∧ 1 ≤ p.month ∧ p.month ≤ 13 ∧ monthOffset p.month + p.day = yday := by
  obtain ⟨m, d, h1, -, -⟩ := monthWalk_isSome year 31 6 1 yday (by norm_num) (by norm_num)
  obtain ⟨hlo, hhi, hsum⟩ := monthWalk_offset year 31 6 1 yday m d (by norm_num) (by norm_num) h1
  push_cast at hhi
  obtain ⟨m2, d2, h2, -, -⟩ := monthWalk_isSome year 30 6 m d (by omega) (by push_cast; omega)
  obtain ⟨hlo2, hhi2, hsum2⟩ :=
    monthWalk_offset year 30 6 m d m2 d2 (by omega) (by push_cast; omega) h2
  push_cast at hhi2
  rw [h1] at h
  simp only [Option.some_bind, h2, Option.map_some', Option.some.injEq] at h
  subst h
  refine ⟨rfl, by simp only; omega, by simp only; omega, ?_⟩
  simp only
  rw [hsum2, hsum]
  norm_num [monthOffset]

theorem persianToJulianDay_of_julianDayToPersian (jd : ℚ) (p : PersianDate)
    (hhalf : ∃ n : ℤ, jd = (n : ℚ) + 1 / 2) (hp : julianDayToPersian jd = some p) :
    persianToJulianDay p.year p.month p.day = some jd := by
  obtain ⟨n, rfl⟩ := hhalf
  have hfloor : mathFloor ((n : ℚ) + 1 / 2) = n := by
    unfold mathFloor
    rw [Int.floor_eq_iff]
    constructor <;> norm_num
  unfold julianDayToPersian at hp
  simp only [hfloor, persianToJulianDay_eq _ 1 _ (le_refl 1) (by norm_num), Option.some_bind]
    at hp
  obtain ⟨hy, hm1, hm13, hsum⟩ := monthWalks_offset _ _ p hp
  rw [persianToJulianDay_eq p.year p.month p.day hm1 hm13]
  have h0 : monthOffset 1 = 0 := by norm_num [monthOffset]
  congr 1
  rw [add_assoc, hsum, hy, h0]
  ring

/-- C18: `julianDayToPersian` never loses the day count: for every half-integer
day count `jd` it returns a date `{year, month, day}`, and
`persianToJulianDay year month day` is `jd` again, whatever the ranges of the
returned month and day. -/
theorem persianToJulianDay_julianDayToPersian (jd : ℚ)
    (hhalf : ∃ n : ℤ, jd = (n : ℚ) + 1 / 2) :
    ∃ p, julianDayToPersian jd = some p ∧
      persianToJulianDay p.year p.month p.day = some jd := by
  obtain ⟨p, hp⟩ := julianDayToPersian_isSome jd
  exact ⟨p, hp, persianToJulianDay_of_julianDayToPersian jd p hhalf hp⟩

/-- C18 at the day count 2460592.5, which `julianDayToPersian` sends to
(1404, 1, -730), a date whose day count is 2460592.5 again. -/
theorem persianToJulianDay_julianDayToPersian_witness :
    ∃ p, julianDayToPersian (4921185 / 2) = some p ∧
      persianToJulianDay p.year p.month p.day = some (4921185 / 2) :=
  persianToJulianDay_julianDayToPersian (4921185 / 2) ⟨2460592, by norm_num⟩

theorem toIntegerOrInfinity_intCast (k : ℤ) : toIntegerOrInfinity (k : ℚ) = k := by
  unfold toIntegerOrInfinity
  split_ifs
  · exact Int.floor_intCast _
  · rw [← Int.cast_neg, Int.floor_intCast, neg_neg]

/-- The remainder `%` of an integer by a positive integer is zero exactly when
the divisor divides it, for negative dividends too. -/
theorem jsRem_eq_zero_iff (y n : ℤ) (hn : 0 < n) : jsRem (y : ℚ) (n : ℚ) = 0 ↔ n ∣ y := by
  have hnq : (n : ℚ) ≠ 0 := by exact_mod_cast hn.ne'
  unfold jsRem
  constructor
  · intro h
    refine ⟨toIntegerOrInfinity ((y : ℚ) / (n : ℚ)), ?_⟩
    have h2 : (y : ℚ) = (n : ℚ) * (toIntegerOrInfinity ((y : ℚ) / (n : ℚ)) : ℚ) := by linarith
    exact_mod_cast h2
  · rintro ⟨k, rfl⟩
    have hdiv : ((n * k : ℤ) : ℚ) / (n : ℚ) = (k : ℚ) := by
      push_cast
      field_simp
    rw [hdiv, toIntegerOrInfinity_intCast]
    push_cast
    ring

/-- The three remainder tests of `isGregorianLeapYear`, as divisibility. -/
theorem jsRem_year_dvd (year : ℤ) :
    (jsRem (year : ℚ) 4 = 0 ↔ (4 : ℤ) ∣ year) ∧
      (jsRem (year : ℚ) 100 = 0 ↔ (100 : ℤ) ∣ year) ∧
      (jsRem (year : ℚ) 400 = 0 ↔ (400 : ℤ) ∣ year) := by
  refine ⟨?_, ?_, ?_⟩
  · simpa using jsRem_eq_zero_iff year 4 (by norm_num)
  · simpa using jsRem_eq_zero_iff year 100 (by norm_num)
  · simpa using jsRem_eq_zero_iff year 400 (by norm_num)

/-- C15: for every integer year, negative years and zero included,
`isGregorianLeapYear year` is true exactly when the year is divisible by 4 and
is not divisible by 100 or is divisible by 400. -/
theorem isGregorianLeapYear_iff (year : ℤ) :
    isGregorianLeapYear year = true ↔ (4 ∣ year ∧ (¬ 100 ∣ year ∨ 400 ∣ year)) := by
  obtain ⟨h4, h100, h400⟩ := jsRem_year_dvd year
  unfold isGregorianLeapYear
  simp only [Bool.or_eq_true, Bool.and_eq_true, decide_eq_true_eq, ne_eq, h4, h100, h400]
  omega

/-- The values `persianCycle` and `persianCyear` are the `cycle` and `cyear`
that `julianDayToPersian` computes. -/
theorem julianDayToPersian_cycle (jd : ℚ) :
    julianDayToPersian jd =
      (let ycycle : ℤ :=
        if persianCyear jd = 1029982 then 2820
        else
          mathFloor ((2134 * (mathFloor (persianCyear jd / 366) : ℚ) +
            2816 * jsRem (persianCyear jd) 366 + 2815) / 1028522) +
              mathFloor (persianCyear jd / 366) + 1
      let year : ℤ := ycycle + 2820 * persianCycle jd + 1
      (persianToJulianDay year 1 1).bind fun jd1 =>
        let yday : ℚ := ((mathFloor jd : ℚ) + 1 / 2) - jd1 + 1
        (monthWalk year 31 6 1 yday).bind fun md =>
          (monthWalk year 30 6 md.1 md.2).map fun md => ⟨year, md.1, md.2⟩) :=
  rfl

/-- On a day count at or after the Persian epoch, `cycle` and `cyear` are the
quotient and the remainder of the floor division of `depoch` by 1029983. -/
theorem persianCycle_cyear_of_nonneg (jd : ℚ) (h : 0 ≤ persianDepoch jd) :
    persianDepoch jd = 1029983 * (persianCycle jd : ℚ) + persianCyear jd ∧
      0 ≤ persianCyear jd ∧ persianCyear jd < 1029983 := by
  have hq : (0 : ℚ) ≤ persianDepoch jd / 1029983 := div_nonneg h (by norm_num)
  have hc : persianCyear jd = persianDepoch jd - 1029983 * (persianCycle jd : ℚ) := by
    unfold persianCyear persianCycle jsRem toIntegerOrInfinity mathFloor
    rw [if_pos hq]
  have hlo := Int.floor_le (persianDepoch jd / 1029983)
  have hhi := Int.lt_floor_add_one (persianDepoch jd / 1029983)
  have hlo2 : (⌊persianDepoch jd / 1029983⌋ : ℚ) * 1029983 ≤ persianDepoch jd := by
    rwa [le_div_iff₀ (by norm_num : (0 : ℚ) < 1029983)] at hlo
  have hhi2 : persianDepoch jd < ((⌊persianDepoch jd / 1029983⌋ : ℚ) + 1) * 1029983 := by
    rwa [div_lt_iff₀ (by norm_num : (0 : ℚ) < 1029983)] at hhi
  rw [hc]
  unfold persianCycle mathFloor
  refine ⟨by ring, by linarith, by linarith⟩

/-- C20 fails on the code before the Persian epoch: for 1 January 600, whose
day count is 1940205.5, `depoch` is -8115, `cycle` is -1 and `cyear` is -8115:
`cyear` is negative and `1029983 * cycle + cyear` is not `depoch`. -/
theorem persianCycle_cyear_600 :
    gregorianToJulianDay ⟨600, 0, 1⟩ = 3880411 / 2 ∧
      persianDepoch (3880411 / 2) = -8115 ∧
      persianCycle (3880411 / 2) = -1 ∧
      persianCyear (3880411 / 2) = -8115 ∧
      persianCyear (3880411 / 2) < 0 ∧
      persianDepoch (3880411 / 2) ≠
        1029983 * (persianCycle (3880411 / 2) : ℚ) + persianCyear (3880411 / 2) := by
  decide!

theorem mathFloor_intCast_div (a : ℤ) (b : ℕ) : mathFloor ((a : ℚ) / (b : ℚ)) = a / (b : ℤ) :=
  Rat.floor_intCast_div_natCast a b

theorem isGregorianLeapYear_eq_inLeapYear (y : ℤ) :
    (isGregorianLeapYear y = true ↔ inLeapYear y = 1) ∧
      (isGregorianLeapYear y = false ↔ inLeapYear y = 0) := by
  obtain ⟨h4, h100, h400⟩ := jsRem_year_dvd y
  have h : isGregorianLeapYear y = true ↔ (4 ∣ y ∧ (¬ 100 ∣ y ∨ 400 ∣ y)) := by
    unfold isGregorianLeapYear
    simp only [Bool.or_eq_true, Bool.and_eq_true, decide_eq_true_eq, ne_eq, h4, h100, h400]
    omega
  have h2 : isGregorianLeapYear y = false ↔ ¬ (4 ∣ y ∧ (¬ 100 ∣ y ∨ 400 ∣ y)) := by
    rw [← h, Bool.not_eq_true]
  rw [h, h2]
  unfold inLeapYear
  constructor <;> split_ifs <;> omega

/-- The day count of a civil date is its platform day number plus 2440587.5,
the day count of 1 January 1970. -/
theorem gregorianToJulianDay_eq_makeDay (d : JSDate) (h : d.IsCivil) :
    gregorianToJulianDay d = (makeDay d.year d.month d.date : ℚ) + 4881175 / 2 := by
  obtain ⟨y, m, dt⟩ := d
  obtain ⟨h0, h11, -, -⟩ := h
  simp only at h0 h11
  have hl := inLeapYear_range y
  have hleap := isGregorianLeapYear_eq_inLeapYear y
  have f4 : mathFloor (((y : ℚ) - 1) / 4) = (y - 1) / 4 := by
    have := mathFloor_intCast_div (y - 1) 4
    push_cast at this
    exact this
  have f100 : mathFloor (((y : ℚ) - 1) / 100) = (y - 1) / 100 := by
    have := mathFloor_intCast_div (y - 1) 100
    push_cast at this
    exact this
  have f400 : mathFloor (((y : ℚ) - 1) / 400) = (y - 1) / 400 := by
    have := mathFloor_intCast_div (y - 1) 400
    push_cast at this
    exact this
  have fm : mathFloor ((367 * (((m + 1 : ℤ)) : ℚ) - 362) / 12) = (367 * (m + 1) - 362) / 12 := by
    have := mathFloor_intCast_div (367 * (m + 1) - 362) 12
    push_cast at this
    push_cast
    exact this
  rw [makeDay_eq y m dt h0 h11]
  unfold gregorianToJulianDay JSDate.getFullYear JSDate.getMonth JSDate.getDate GREGORIAN_EPOCH
  simp only [f4, f100, f400, fm]
  have hyear : ((dayFromYear y : ℤ) : ℚ) =
      365 * ((y : ℚ) - 1) + (((y - 1) / 4 : ℤ) : ℚ) - (((y - 1) / 100 : ℤ) : ℚ) +
        (((y - 1) / 400 : ℤ) : ℚ) - 719162 := by
    have : dayFromYear y = 365 * (y - 1) + (y - 1) / 4 - (y - 1) / 100 + (y - 1) / 400 - 719162 := by
      unfold dayFromYear
      omega
    rw [this]
    push_cast
    ring
  push_cast
  rw [hyear]
  rcases Bool.eq_false_or_eq_true (isGregorianLeapYear y) with hb | hb
  · have hi := hleap.1.1 hb
    interval_cases m <;> norm_num [monthStart, hb, hi] <;> ring
  · have hi := hleap.2.1 hb
    interval_cases m <;> norm_num [monthStart, hb, hi] <;> ring

theorem makeDay_civil (d : JSDate) (h : d.IsCivil) :
    makeDay d.year d.month d.date =
      dayFromYear d.year + monthStart d.month (inLeapYear d.year) + d.date - 1 :=
  makeDay_eq d.year d.month d.date h.1 h.2.1

theorem succ_isCivil (d : JSDate) (h : d.IsCivil) : d.succ.IsCivil := by
  obtain ⟨y, m, dt⟩ := d
  obtain ⟨h0, h11, hd1, hd2⟩ := h
  simp only at h0 h11 hd1 hd2
  have hl := inLeapYear_range y
  have hl2 := inLeapYear_range (y + 1)
  unfold JSDate.succ JSDate.IsCivil
  simp only
  split_ifs with h1 h2
  · simp only
    omega
  · simp only
    refine ⟨by omega, by omega, by omega, ?_⟩
    unfold gregorianMonthLength
    split_ifs <;> omega
  · simp only
    refine ⟨by omega, by omega, by omega, ?_⟩
    unfold gregorianMonthLength
    split_ifs <;> omega

theorem makeDay_succ (d : JSDate) (h : d.IsCivil) :
    makeDay d.succ.year d.succ.month d.succ.date = makeDay d.year d.month d.date + 1 := by
  rw [makeDay_civil d.succ (succ_isCivil d h), makeDay_civil d h]
  obtain ⟨y, m, dt⟩ := d
  obtain ⟨h0, h11, hd1, hd2⟩ := h
  simp only at h0 h11 hd1 hd2
  have hl := inLeapYear_range y
  have hs := dayFromYear_succ y
  unfold JSDate.succ
  simp only
  split_ifs with h1 h2
  · simp only
    omega
  · simp only
    unfold gregorianMonthLength at hd2 h1
    unfold monthStart
    interval_cases m <;> simp at hd2 h1 ⊢ <;> omega
  · simp only
    have hm : m = 11 := by omega
    subst hm
    unfold gregorianMonthLength at hd2 h1
    simp [monthStart] at hd2 h1 ⊢
    omega

theorem makeDay_lt_of_before (d e : JSDate) (hd : d.IsCivil) (he : e.IsCivil)
    (h : d.Before e) :
    makeDay d.year d.month d.date < makeDay e.year e.month e.date := by
  rw [makeDay_civil d hd, makeDay_civil e he]
  obtain ⟨y, m, dt⟩ := d
  obtain ⟨y2, m2, dt2⟩ := e
  have hb := monthStart_bounds y m dt hd.1 hd.2.1 hd.2.2.1 hd.2.2.2
  have hb2 := monthStart_bounds y2 m2 dt2 he.1 he.2.1 he.2.2.1 he.2.2.2
  obtain ⟨h0, h11, hd1, hd2⟩ := hd
  obtain ⟨g0, g11, gd1, gd2⟩ := he
  simp only at h0 h11 hd1 hd2 g0 g11 gd1 gd2 hb hb2 ⊢
  have hl := inLeapYear_range y
  rcases h with hy | ⟨hy, hm | ⟨hm, hdt⟩⟩
  · simp only at hy
    have hs := dayFromYear_succ y
    have hmono := dayFromYear_mono (y + 1) y2 (by omega)
    omega
  · simp only at hy hm
    subst hy
    unfold gregorianMonthLength at hd2
    have key : monthStart m (inLeapYear y) + dt - 1 < monthStart m2 (inLeapYear y) := by
      have hstep : ∀ a b : ℤ, 0 ≤ a → a < b → b ≤ 11 →
          monthStart (a + 1) (inLeapYear y) ≤ monthStart b (inLeapYear y) := by
        intro a b ha hab hb11
        have ha10 : a ≤ 10 := by omega
        have hb1 : 1 ≤ b := by omega
        unfold monthStart
        interval_cases a <;> interval_cases b <;> simp <;> omega
      have h1 := hstep m m2 h0 hm g11
      have h2 : monthStart m (inLeapYear y) + dt - 1 < monthStart (m + 1) (inLeapYear y) := by
        unfold monthStart
        interval_cases m <;> simp at hd2 ⊢ <;> omega
      omega
    omega
  · simp only at hy hm hdt
    subst hy
    subst hm
    omega

/-- C17: `gregorianToJulianDay` is a continuous day count over the proleptic
Gregorian calendar: the calendar successor of a valid civil date, of any
integer year, is a valid civil date whose day count is exactly 1 greater
(February has 29 or 28 days as `isGregorianLeapYear` says), and the day count
is strictly increasing in calendar order. -/
theorem gregorianToJulianDay_succ (d : JSDate) (h : d.IsCivil) :
    d.succ.IsCivil ∧ gregorianToJulianDay d.succ = gregorianToJulianDay d + 1 ∧
      (gregorianMonthLength d.year 1 = if isGregorianLeapYear d.year = true then 29 else 28) ∧
      ∀ e : JSDate, e.IsCivil → d.Before e →
        gregorianToJulianDay d < gregorianToJulianDay e := by
  refine ⟨succ_isCivil d h, ?_, ?_, ?_⟩
  · rw [gregorianToJulianDay_eq_makeDay d.succ (succ_isCivil d h),
      gregorianToJulianDay_eq_makeDay d h, makeDay_succ d h]
    push_cast
    ring
  · have hleap := isGregorianLeapYear_eq_inLeapYear d.year
    unfold gregorianMonthLength
    rcases Bool.eq_false_or_eq_true (isGregorianLeapYear d.year) with hb | hb
    · simp [hb, hleap.1.1 hb]
    · simp [hb, hleap.2.1 hb]
  · intro e he hbefore
    rw [gregorianToJulianDay_eq_makeDay d h, gregorianToJulianDay_eq_makeDay e he]
    have := makeDay_lt_of_before d e h he hbefore
    have hq : ((makeDay d.year d.month d.date : ℤ) : ℚ) < (makeDay e.year e.month e.date : ℤ) := by
      exact_mod_cast this
    linarith

/-- C17 at 29 February 2024: its successor is 1 March 2024, one day later in
the day count. -/
theorem gregorianToJulianDay_succ_witness :
    JSDate.succ ⟨2024, 1, 29⟩ = ⟨2024, 2, 1⟩ ∧
      gregorianToJulianDay (JSDate.succ ⟨2024, 1, 29⟩) =
        gregorianToJulianDay ⟨2024, 1, 29⟩ + 1 :=
  ⟨by decide!, (gregorianToJulianDay_succ ⟨2024, 1, 29⟩ (by decide!)).2.1⟩

theorem arrayGetString_monthNames (month : ℤ) (h1 : 1 ≤ month) (h12 : month ≤ 12) :
    ∃ name, arrayGetString monthNames (month - 1) = some name := by
  interval_cases month <;> exact ⟨_, rfl⟩


/-! ## Rounding to a double -/

theorem log2Fuel_eq (fuel : ℕ) : ∀ n : ℕ, n ≤ fuel → log2Fuel fuel n = Nat.log2 n := by
  induction fuel with
  | zero =>
    intro n hn
    have : n = 0 := by omega
    subst this
    rw [Nat.log2]
    simp [log2Fuel]
  | succ k ih =>
    intro n hn
    rw [Nat.log2]
    unfold log2Fuel
    split_ifs with h
    · rw [ih (n / 2) (by omega)]
    · rfl

theorem natLog2_eq (n : ℕ) : natLog2 n = Nat.log2 n := log2Fuel_eq n n (le_refl n)

theorem pow2_eq (e : ℤ) : pow2 e = (2 : ℚ) ^ e := by
  unfold pow2
  split_ifs with h
  · obtain ⟨n, rfl⟩ := Int.eq_ofNat_of_zero_le h
    simp
  · have h' : 0 ≤ -e := by omega
    obtain ⟨n, hn⟩ := Int.eq_ofNat_of_zero_le h'
    have he : e = -(n : ℤ) := by omega
    subst he
    simp

theorem pow2_pos (e : ℤ) : 0 < pow2 e := by
  rw [pow2_eq]
  positivity

theorem binade_le (x : ℚ) (hx : x ≠ 0) : (2 : ℚ) ^ binade x ≤ |x| := by
  unfold binade
  simp only [natLog2_eq]
  split_ifs with h
  · rwa [pow2_eq] at h
  · have hnum : x.num.natAbs ≠ 0 := by
      simpa using Rat.num_ne_zero.2 hx
    have h1 : (2 : ℚ) ^ (x.num.natAbs.log2) ≤ (x.num.natAbs : ℚ) := by
      exact_mod_cast Nat.log2_self_le hnum
    have h2 : (x.den : ℚ) < (2 : ℚ) ^ (x.den.log2 + 1) := by
      exact_mod_cast (Nat.lt_log2_self : x.den < 2 ^ (x.den.log2 + 1))
    have hden : (0 : ℚ) < x.den := by exact_mod_cast x.den_pos
    have habs : |x| = (x.num.natAbs : ℚ) / (x.den : ℚ) := by
      conv_lhs => rw [← Rat.num_div_den x]
      rw [abs_div, Nat.abs_cast, Nat.cast_natAbs, Int.cast_abs]
    rw [habs, le_div_iff₀ hden]
    have hsplit : (2 : ℚ) ^ ((x.num.natAbs.log2 : ℤ) - (x.den.log2 : ℤ) - 1) * (2 : ℚ) ^ (x.den.log2 + 1)
        = (2 : ℚ) ^ (x.num.natAbs.log2) := by
      rw [← zpow_natCast (2 : ℚ) (x.den.log2 + 1), ← zpow_add₀ (by norm_num : (2 : ℚ) ≠ 0),
        ← zpow_natCast (2 : ℚ) (x.num.natAbs.log2)]
      congr 1
      push_cast
      ring
    have hpos : (0 : ℚ) < (2 : ℚ) ^ ((x.num.natAbs.log2 : ℤ) - (x.den.log2 : ℤ) - 1) := by positivity
    calc (2 : ℚ) ^ ((x.num.natAbs.log2 : ℤ) - (x.den.log2 : ℤ) - 1) * (x.den : ℚ)
        ≤ (2 : ℚ) ^ ((x.num.natAbs.log2 : ℤ) - (x.den.log2 : ℤ) - 1) * (2 : ℚ) ^ (x.den.log2 + 1) :=
          mul_le_mul_of_nonneg_left h2.le hpos.le
      _ = (2 : ℚ) ^ (x.num.natAbs.log2) := hsplit
      _ ≤ (x.num.natAbs : ℚ) := h1

theorem binade_lt_of_abs_lt (x : ℚ) (hx : x ≠ 0) (k : ℤ) (h : |x| < (2 : ℚ) ^ k) :
    binade x < k := by
  have h1 := lt_of_le_of_lt (binade_le x hx) h
  exact (zpow_lt_zpow_iff_right₀ (by norm_num : (1 : ℚ) < 2)).1 h1

theorem roundHalfEven_intCast (n : ℤ) : roundHalfEven (n : ℚ) = n := by
  unfold roundHalfEven
  simp

theorem roundHalfEven_error (q : ℚ) : |(roundHalfEven q : ℚ) - q| ≤ 1 / 2 := by
  have h1 := Int.floor_le q
  have h2 := Int.lt_floor_add_one q
  unfold roundHalfEven
  simp only
  rw [abs_le]
  split_ifs with ha hb hc
  · constructor <;> linarith
  · push_cast
    constructor <;> linarith
  · have : q - ⌊q⌋ = 1 / 2 := le_antisymm (not_lt.1 hb) (not_lt.1 ha)
    constructor <;> linarith
  · have : q - ⌊q⌋ = 1 / 2 := le_antisymm (not_lt.1 hb) (not_lt.1 ha)
    push_cast
    constructor <;> linarith

/-- Rounding to a double moves a value below `2 ^ k` by at most `2 ^ (k - 54)`,
half a unit in the last place. -/
theorem roundDouble_error (x : ℚ) (k : ℤ) (hk : -1022 < k) (hx : |x| < (2 : ℚ) ^ k) :
    |roundDouble x - x| ≤ (2 : ℚ) ^ (k - 54) := by
  unfold roundDouble
  split_ifs with h0
  · subst h0
    simp only [sub_self, abs_zero]
    positivity
  · simp only
    have hE : max (binade x) (-1022) ≤ k - 1 := by
      have := binade_lt_of_abs_lt x h0 k hx
      exact max_le (by omega) (by omega)
    set E := max (binade x) (-1022) with hEdef
    have hulp : pow2 (E - 52) = (2 : ℚ) ^ (E - 52) := pow2_eq _
    rw [hulp]
    have hpos : (0 : ℚ) < (2 : ℚ) ^ (E - 52) := by positivity
    have herr := roundHalfEven_error (x / (2 : ℚ) ^ (E - 52))
    have hrew : (roundHalfEven (x / (2 : ℚ) ^ (E - 52)) : ℚ) * (2 : ℚ) ^ (E - 52) - x =
        ((roundHalfEven (x / (2 : ℚ) ^ (E - 52)) : ℚ) - x / (2 : ℚ) ^ (E - 52)) *
          (2 : ℚ) ^ (E - 52) := by
      field_simp
    rw [hrew, abs_mul, abs_of_pos hpos]
    have hle : (2 : ℚ) ^ (E - 52) ≤ (2 : ℚ) ^ (k - 53) :=
      zpow_le_zpow_right₀ (by norm_num) (by omega)
    have hhalf : (2 : ℚ) ^ (k - 54) = 1 / 2 * (2 : ℚ) ^ (k - 53) := by
      rw [show k - 53 = (k - 54) + 1 by ring, zpow_add_one₀ (by norm_num : (2 : ℚ) ≠ 0)]
      ring
    rw [hhalf]
    exact mul_le_mul herr hle hpos.le (by norm_num)

/-- A half-integer `m / 2` with `|m| < 2 ^ 53` is a double: rounding keeps it. -/
theorem roundDouble_half (m : ℤ) (hm : |m| < 2 ^ 53) : roundDouble ((m : ℚ) / 2) = (m : ℚ) / 2 := by
  unfold roundDouble
  split_ifs with h0
  · rw [h0]
  · simp only
    have hx : |(m : ℚ) / 2| < (2 : ℚ) ^ (52 : ℤ) := by
      rw [abs_div, abs_of_pos (by norm_num : (0 : ℚ) < 2), div_lt_iff₀ (by norm_num)]
      have : (|m| : ℤ) < 2 ^ 53 := hm
      have h2 : ((|m| : ℤ) : ℚ) < ((2 ^ 53 : ℤ) : ℚ) := by exact_mod_cast this
      rw [Int.cast_abs] at h2
      norm_num at h2 ⊢
      linarith
    have hE : max (binade ((m : ℚ) / 2)) (-1022) ≤ 51 := by
      have := binade_lt_of_abs_lt _ h0 52 hx
      exact max_le (by omega) (by omega)
    set E := max (binade ((m : ℚ) / 2)) (-1022) with hEdef
    obtain ⟨n, hn⟩ := Int.eq_ofNat_of_zero_le (show 0 ≤ 51 - E by omega)
    rw [pow2_eq]
    have hpos : (0 : ℚ) < (2 : ℚ) ^ (E - 52) := by positivity
    have hq : (m : ℚ) / 2 / (2 : ℚ) ^ (E - 52) = ((m * 2 ^ n : ℤ) : ℚ) := by
      have hpow : (2 : ℚ) ^ (E - 52) * (2 : ℚ) ^ (n : ℤ) = 1 / 2 := by
        rw [← zpow_add₀ (by norm_num : (2 : ℚ) ≠ 0), ← hn]
        have : E - 52 + (51 - E) = -1 := by ring
        rw [this]
        norm_num
      rw [zpow_natCast] at hpow
      push_cast
      field_simp
      linear_combination (-2 * (m : ℚ)) * hpow
    rw [hq, roundHalfEven_intCast, ← hq]
    field_simp
    ring

/-- An integer below `2 ^ 52` in absolute value is a double. -/
theorem roundDouble_int (n : ℤ) (hn : |n| < 2 ^ 52) : roundDouble (n : ℚ) = n := by
  have h := roundDouble_half (2 * n) (by rw [abs_mul]; norm_num; omega)
  have h2 : ((2 * n : ℤ) : ℚ) / 2 = n := by push_cast; ring
  rwa [h2] at h

/-! ## Claims about doubles: leap years, day counts, printing -/

theorem roundDouble_of_half (x : ℚ) (m : ℤ) (hx : x = (m : ℚ) / 2) (hm : |m| < 2 ^ 53) :
    roundDouble x = x := by
  rw [hx]
  exact roundDouble_half m hm

theorem leapFractionDouble_eq :
    leapFractionDouble = 8726123533306229 / 36028797018963968 := by
  decide!

/-- The rounded product of `isPersianLeapYear` for a year up to 500000 in
absolute value: the year plus 2346 is exact, and the product is within
`2 ^ (-37)` of the exact product with the double constant. -/
theorem leapProduct_error (year : ℤ) (h : |year| ≤ 500000) :
    |roundDouble (roundDouble ((year : ℚ) + 2346) * leapFractionDouble) -
      ((year : ℚ) + 2346) * leapFractionDouble| ≤ (2 : ℚ) ^ (-37 : ℤ) := by
  obtain ⟨hlo, hhi⟩ := abs_le.1 h
  have hsum : roundDouble ((year : ℚ) + 2346) = (year : ℚ) + 2346 := by
    have := roundDouble_int (year + 2346) (by rw [abs_lt]; constructor <;> omega)
    push_cast at this
    exact this
  rw [hsum]
  have hlo' : (-500000 : ℚ) ≤ year := by exact_mod_cast hlo
  have hhi' : (year : ℚ) ≤ 500000 := by exact_mod_cast hhi
  have hb : |((year : ℚ) + 2346) * leapFractionDouble| < (2 : ℚ) ^ (17 : ℤ) := by
    rw [leapFractionDouble_eq, abs_lt]
    norm_num
    constructor <;> linarith
  have := roundDouble_error _ 17 (by norm_num) hb
  norm_num at this ⊢
  exact this

theorem leapYear_of_abs_le (year : ℤ) (h : |year| ≤ 500000) :
    isPersianLeapYear year = true ↔ (25000000000 : ℤ) ∣ year + 2346 := by
  obtain ⟨hlo, hhi⟩ := abs_le.1 h
  have herr := abs_le.1 (leapProduct_error year h)
  have hlo' : (-500000 : ℚ) ≤ year := by exact_mod_cast hlo
  have hhi' : (year : ℚ) ≤ 500000 := by exact_mod_cast hhi
  unfold isPersianLeapYear mathFloor
  simp only [decide_eq_true_eq]
  generalize hu : roundDouble (roundDouble ((year : ℚ) + 2346) * leapFractionDouble) = u at herr ⊢
  rw [leapFractionDouble_eq] at herr hu
  constructor
  · intro hint
    have hK : |((25000000000 * ⌊u⌋ - 6054964539 * (year + 2346) : ℤ) : ℚ)| < 1 := by
      push_cast
      rw [hint, abs_lt]
      norm_num at herr
      constructor <;> linarith
    have hK0 : 25000000000 * ⌊u⌋ - 6054964539 * (year + 2346) = 0 := by
      have h1 : |25000000000 * ⌊u⌋ - 6054964539 * (year + 2346)| < 1 := by
        have : ((|25000000000 * ⌊u⌋ - 6054964539 * (year + 2346)| : ℤ) : ℚ) < ((1 : ℤ) : ℚ) := by
          rw [Int.cast_abs]
          exact_mod_cast hK
        exact_mod_cast this
      exact Int.abs_lt_one_iff.1 h1
    have hdvd : (25000000000 : ℤ) ∣ (year + 2346) * 6054964539 :=
      ⟨⌊u⌋, by linarith⟩
    have hco : IsCoprime (25000000000 : ℤ) 6054964539 := by
      rw [Int.isCoprime_iff_gcd_eq_one]
      decide
    exact hco.dvd_of_dvd_mul_right hdvd
  · rintro ⟨k, hk⟩
    have hy : year = -2346 := by omega
    subst hy
    have hz : u = 0 := by
      rw [← hu]
      decide!
    rw [hz]
    simp

/-- C19 as stated fails on the code: for year 1249837901 the product
`(year + 2346) * 0.24219858156` rounds to the integer 302709535, so
`isPersianLeapYear` is true, while `year + 2346` is no multiple of
25,000,000,000. -/
theorem isPersianLeapYear_1249837901 :
    roundDouble (roundDouble (((1249837901 : ℤ) : ℚ) + 2346) * leapFractionDouble) = 302709535 ∧
      isPersianLeapYear 1249837901 = true ∧
      ¬ ((25000000000 : ℤ) ∣ 1249837901 + 2346) := by
  decide!

/-- C19, amended: for every integer year of absolute value at most 500000,
`isPersianLeapYear year` is true exactly when `year + 2346` is a multiple of
25,000,000,000 (in that range, only for year -2346); so it is false for every
year from 1 to 9999. -/
theorem isPersianLeapYear_iff_of_abs_le :
    (∀ year : ℤ, |year| ≤ 500000 →
      (isPersianLeapYear year = true ↔ (25000000000 : ℤ) ∣ year + 2346)) ∧
      ∀ year : ℤ, 1 ≤ year → year ≤ 9999 → isPersianLeapYear year = false := by
  refine ⟨leapYear_of_abs_le, ?_⟩
  intro year h1 h2
  rw [← Bool.not_eq_true, leapYear_of_abs_le year (by rw [abs_le]; constructor <;> omega)]
  omega

/-- C19, amended, at year 1402, which lies between 1 and 9999: it is not a
leap year for `isPersianLeapYear`. -/
theorem isPersianLeapYear_iff_of_abs_le_witness : isPersianLeapYear 1402 = false :=
  isPersianLeapYear_iff_of_abs_le.2 1402 (by decide) (by decide)

theorem monthOffset_int (m : ℤ) (h1 : 1 ≤ m) (h13 : m ≤ 13) :
    ∃ k : ℤ, monthOffset m = (k : ℚ) ∧ 0 ≤ k ∧ k ≤ 366 := by
  refine ⟨if m ≤ 7 then 31 * (m - 1) else 186 + 30 * (m - 7), ?_, ?_, ?_⟩
  · unfold monthOffset
    split_ifs <;> push_cast <;> ring
  · split_ifs <;> omega
  · split_ifs <;> omega

/-- The month loop in doubles adds the month lengths exactly when the running
day count is a half-integer below `2 ^ 51`. -/
theorem addMonthLengthsDouble_range (year : ℤ) (jd : ℚ) (a : ℤ) (hjd : jd = (a : ℚ) / 2)
    (ha : |a| < 2 ^ 52) (n : ℕ) (hn : n ≤ 12) :
    (List.range n).foldlM
      (fun (acc : ℚ) (k : ℕ) =>
        (getPersianMonthLength year ((k : ℤ) + 1)).map fun len => roundDouble (acc + len)) jd =
      some (jd + monthOffset ((n : ℤ) + 1)) := by
  induction n with
  | zero => simp [monthOffset]
  | succ k ih =>
    have ihk := ih (by omega)
    obtain ⟨len, hlen, hoff⟩ := monthOffset_succ year ((k : ℤ) + 1) (by omega) (by omega)
    obtain ⟨o, ho, ho0, ho366⟩ := monthOffset_int ((k : ℤ) + 1 + 1) (by omega) (by omega)
    rw [List.range_succ, List.foldlM_append, ihk]
    simp only [Option.bind_eq_bind, Option.some_bind, List.foldlM_cons, List.foldlM_nil, hlen,
      Option.map_some', Option.pure_def]
    have hsum : jd + monthOffset ((k : ℤ) + 1) + len = jd + monthOffset ((k : ℤ) + 1 + 1) := by
      rw [hoff]
      ring
    rw [hsum]
    have hexact : roundDouble (jd + monthOffset ((k : ℤ) + 1 + 1)) =
        jd + monthOffset ((k : ℤ) + 1 + 1) := by
      apply roundDouble_of_half _ (a + 2 * o)
      · rw [hjd, ho]
        push_cast
        ring
      · obtain ⟨hlo, hhi⟩ := abs_lt.1 ha
        rw [abs_lt]
        constructor <;> omega
    rw [hexact]
    push_cast
    rfl

theorem addMonthLengthsDouble_eq (year m : ℤ) (jd : ℚ) (a : ℤ) (hjd : jd = (a : ℚ) / 2)
    (ha : |a| < 2 ^ 52) (h1 : 1 ≤ m) (h13 : m ≤ 13) :
    addMonthLengthsDouble year m jd = some (jd + monthOffset m) := by
  unfold addMonthLengthsDouble
  have hn : ((m - 1).toNat : ℤ) = m - 1 := Int.toNat_of_nonneg (by omega)
  have := addMonthLengthsDouble_range year jd a hjd ha (m - 1).toNat (by omega)
  rw [this, hn, sub_add_cancel]

theorem leapTermDouble_bound (year : ℤ) (h : |year| ≤ 1000000000000) :
    |leapTermDouble year| ≤ 2 ^ 39 := by
  obtain ⟨hlo, hhi⟩ := abs_le.1 h
  have hsum : roundDouble ((year : ℚ) + 2346) = (year : ℚ) + 2346 := by
    have := roundDouble_int (year + 2346) (by rw [abs_lt]; constructor <;> omega)
    push_cast at this
    exact this
  have hlo' : (-1000000000000 : ℚ) ≤ year := by exact_mod_cast hlo
  have hhi' : (year : ℚ) ≤ 1000000000000 := by exact_mod_cast hhi
  have hb : |((year : ℚ) + 2346) * leapFractionDouble| < (2 : ℚ) ^ (38 : ℤ) := by
    rw [leapFractionDouble_eq, abs_lt]
    norm_num
    constructor <;> linarith
  have herr := abs_le.1 (roundDouble_error _ 38 (by norm_num) hb)
  obtain ⟨hb1, hb2⟩ := abs_lt.1 hb
  unfold leapTermDouble mathFloor
  rw [hsum]
  generalize roundDouble (((year : ℚ) + 2346) * leapFractionDouble) = u at herr ⊢
  norm_num at herr hb1 hb2
  rw [abs_le]
  constructor
  · rw [Int.le_floor]
    push_cast
    linarith
  · have : ⌊u⌋ < 2 ^ 39 := by
      rw [Int.floor_lt]
      push_cast
      linarith
    omega

/-- The day count in doubles, in closed form: for a year up to `10 ^ 12` in
absolute value, a month from 1 to 13 and an integer day up to 1000 in absolute
value, no rounding occurs outside the leap term. -/
theorem persianToJulianDayDouble_eq (year m d : ℤ) (hy : |year| ≤ 1000000000000)
    (h1 : 1 ≤ m) (h13 : m ≤ 13) (hd : |d| ≤ 1000) :
    persianToJulianDayDouble year m d =
      some (PERSIAN_EPOCH - 1 + 365 * ((year : ℚ) - 1) + (leapTermDouble year : ℚ) +
        monthOffset m + d) := by
  obtain ⟨hlo, hhi⟩ := abs_le.1 hy
  obtain ⟨dlo, dhi⟩ := abs_le.1 hd
  obtain ⟨llo, lhi⟩ := abs_le.1 (leapTermDouble_bound year hy)
  obtain ⟨o, ho, ho0, ho366⟩ := monthOffset_int m h1 h13
  have e0 : roundDouble (PERSIAN_EPOCH - 1) = PERSIAN_EPOCH - 1 := by decide!
  have e1 : roundDouble ((year : ℚ) - 1) = (year : ℚ) - 1 := by
    have := roundDouble_int (year - 1) (by rw [abs_lt]; constructor <;> omega)
    push_cast at this
    exact this
  have e2 : roundDouble (365 * ((year : ℚ) - 1)) = 365 * ((year : ℚ) - 1) := by
    have := roundDouble_int (365 * (year - 1)) (by rw [abs_lt]; constructor <;> omega)
    push_cast at this
    exact this
  have e3 : roundDouble (PERSIAN_EPOCH - 1 + 365 * ((year : ℚ) - 1)) =
      PERSIAN_EPOCH - 1 + 365 * ((year : ℚ) - 1) := by
    apply roundDouble_of_half _ (3896639 + 730 * (year - 1))
    · unfold PERSIAN_EPOCH
      push_cast
      ring
    · rw [abs_lt]
      constructor <;> omega
  have e4 : roundDouble (PERSIAN_EPOCH - 1 + 365 * ((year : ℚ) - 1) + (leapTermDouble year : ℚ)) =
      PERSIAN_EPOCH - 1 + 365 * ((year : ℚ) - 1) + (leapTermDouble year : ℚ) := by
    apply roundDouble_of_half _ (3896639 + 730 * (year - 1) + 2 * leapTermDouble year)
    · unfold PERSIAN_EPOCH
      push_cast
      ring
    · rw [abs_lt]
      constructor <;> omega
  have e5 := addMonthLengthsDouble_eq year m
    (PERSIAN_EPOCH - 1 + 365 * ((year : ℚ) - 1) + (leapTermDouble year : ℚ))
    (3896639 + 730 * (year - 1) + 2 * leapTermDouble year)
    (by unfold PERSIAN_EPOCH; push_cast; ring) (by rw [abs_lt]; constructor <;> omega) h1 h13
  have e6 : roundDouble (PERSIAN_EPOCH - 1 + 365 * ((year : ℚ) - 1) + (leapTermDouble year : ℚ) +
      monthOffset m + d) =
      PERSIAN_EPOCH - 1 + 365 * ((year : ℚ) - 1) + (leapTermDouble year : ℚ) + monthOffset m + d := by
    apply roundDouble_of_half _ (3896639 + 730 * (year - 1) + 2 * leapTermDouble year + 2 * o + 2 * d)
    · rw [ho]
      unfold PERSIAN_EPOCH
      push_cast
      ring
    · rw [abs_lt]
      constructor <;> omega
  unfold persianToJulianDayDouble
  simp only [e0, e1, e2, e3, e4, e5, Option.map_some', e6]

/-- C11 as stated fails on the code: for year 30,000,000,000,000 the day
counts of days 17 and 18 of month 5 are 10957265959395468 and
10957265959395470, two apart, because doubles of that size are spaced 2 apart;
and `10957265959395468 + 1` rounds back to 10957265959395468. -/
theorem persianToJulianDayDouble_succ_day_large :
    getPersianMonthLength 30000000000000 5 = some 31 ∧
      persianToJulianDayDouble 30000000000000 5 17 = some 10957265959395468 ∧
      persianToJulianDayDouble 30000000000000 5 (17 + 1) = some 10957265959395470 ∧
      roundDouble (10957265959395468 + 1) = 10957265959395468 := by
  decide!

/-- C11, amended: for every integer year of absolute value at most `10 ^ 12`,
every month from 1 to 12 and every day `d` with `1 ≤ d` below the month length,
the day count of day `d + 1` is the day count of day `d` plus 1, and that sum
is exact in doubles. -/
theorem persianToJulianDayDouble_succ_day (year month d : ℤ) (len : ℚ)
    (hy : |year| ≤ 1000000000000) (h1 : 1 ≤ month) (h12 : month ≤ 12) (hd : 1 ≤ d)
    (hlen : getPersianMonthLength year month = some len) (hlt : (d : ℚ) < len) :
    ∃ jd, persianToJulianDayDouble year month d = some jd ∧
      persianToJulianDayDouble year month ((d : ℚ) + 1) = some (jd + 1) ∧
      roundDouble (jd + 1) = jd + 1 := by
  have hlen2 := getPersianMonthLength_eq year month h1 h12
  rw [hlen, Option.some.injEq] at hlen2
  have hd31 : d < 31 := by
    have : (d : ℚ) < 31 := by
      rw [hlen2] at hlt
      split_ifs at hlt <;> linarith
    exact_mod_cast this
  have ha := persianToJulianDayDouble_eq year month d hy h1 (by omega)
    (by rw [abs_le]; constructor <;> omega)
  have hb := persianToJulianDayDouble_eq year month (d + 1) hy h1 (by omega)
    (by rw [abs_le]; constructor <;> omega)
  push_cast at hb
  obtain ⟨hlo, hhi⟩ := abs_le.1 hy
  obtain ⟨llo, lhi⟩ := abs_le.1 (leapTermDouble_bound year hy)
  obtain ⟨o, ho, ho0, ho366⟩ := monthOffset_int month h1 (by omega)
  refine ⟨_, ha, ?_, ?_⟩
  · rw [hb]
    congr 1
    ring
  · apply roundDouble_of_half _
      (3896639 + 730 * (year - 1) + 2 * leapTermDouble year + 2 * o + 2 * d + 2)
    · rw [ho]
      unfold PERSIAN_EPOCH
      push_cast
      ring
    · rw [abs_lt]
      constructor <;> omega

/-- C11, amended, at 1402/5/17: the day count of 1402/5/18 is one more. -/
theorem persianToJulianDayDouble_succ_day_witness :
    ∃ jd, persianToJulianDayDouble 1402 5 (17 : ℤ) = some jd ∧
      persianToJulianDayDouble 1402 5 (((17 : ℤ) : ℚ) + 1) = some (jd + 1) ∧
      roundDouble (jd + 1) = jd + 1 :=
  persianToJulianDayDouble_succ_day 1402 5 17 31 (by decide) (by decide) (by decide)
    (by decide) (by decide!) (by norm_num)

/-- At calendar-size years the leap term in doubles is the exact one: for a
year up to 500000 in absolute value, rounding does not move the product across
an integer. -/
theorem leapTermDouble_eq (year : ℤ) (h : |year| ≤ 500000) :
    leapTermDouble year = mathFloor (((year : ℚ) + 2346) * leapFraction) := by
  obtain ⟨hlo, hhi⟩ := abs_le.1 h
  have hnd : year ≠ -2346 → ¬ (25000000000 : ℤ) ∣ 6054964539 * (year + 2346) := by
    intro hz hdvd
    have hco : IsCoprime (25000000000 : ℤ) 6054964539 := by
      rw [Int.isCoprime_iff_gcd_eq_one]
      decide
    obtain ⟨k, hk⟩ := hco.dvd_of_dvd_mul_left hdvd
    clear hdvd hco
    omega
  have herr := abs_le.1 (leapProduct_error year h)
  have hlo' : (-500000 : ℚ) ≤ year := by exact_mod_cast hlo
  have hhi' : (year : ℚ) ≤ 500000 := by exact_mod_cast hhi
  have hexact : ((year : ℚ) + 2346) * leapFraction =
      ((6054964539 * (year + 2346) : ℤ) : ℚ) / ((25000000000 : ℕ) : ℚ) := by
    unfold leapFraction
    push_cast
    ring
  have hfloor : mathFloor (((year : ℚ) + 2346) * leapFraction) =
      6054964539 * (year + 2346) / 25000000000 := by
    rw [hexact]
    exact Rat.floor_intCast_div_natCast _ _
  rw [hfloor]
  unfold leapTermDouble mathFloor
  by_cases hz : year = -2346
  · subst hz
    decide!
  · have hnd := hnd hz
    generalize hu : roundDouble (roundDouble ((year : ℚ) + 2346) * leapFractionDouble) = u
      at herr ⊢
    rw [leapFractionDouble_eq] at herr
    norm_num at herr
    have hdiv := Int.emod_add_ediv (6054964539 * (year + 2346)) 25000000000
    have hr0 : 6054964539 * (year + 2346) % 25000000000 ≠ 0 := fun h0 =>
      hnd (Int.dvd_of_emod_eq_zero h0)
    have hr3 := Int.emod_nonneg (6054964539 * (year + 2346))
      (by norm_num : (25000000000 : ℤ) ≠ 0)
    have hr4 := Int.emod_lt_of_pos (6054964539 * (year + 2346))
      (by norm_num : (0 : ℤ) < 25000000000)
    have hr1 : 1 ≤ 6054964539 * (year + 2346) % 25000000000 :=
      Int.add_one_le_iff.2 (lt_of_le_of_ne hr3 (Ne.symm hr0))
    have hr2 : 6054964539 * (year + 2346) % 25000000000 ≤ 24999999999 :=
      Int.lt_add_one_iff.1 hr4
    have hq : ((6054964539 * (year + 2346) % 25000000000 : ℤ) : ℚ) +
        25000000000 * ((6054964539 * (year + 2346) / 25000000000 : ℤ) : ℚ) =
        6054964539 * ((year : ℚ) + 2346) := by
      exact_mod_cast hdiv
    have hr1' : (1 : ℚ) ≤ ((6054964539 * (year + 2346) % 25000000000 : ℤ) : ℚ) := by
      exact_mod_cast hr1
    have hr2' : ((6054964539 * (year + 2346) % 25000000000 : ℤ) : ℚ) ≤ 24999999999 := by
      exact_mod_cast hr2
    rw [Int.floor_eq_iff]
    constructor <;> linarith

/-- At calendar-size years the exact day count is what the engine computes: for
a year up to 500000 in absolute value, a month from 1 to 13 and an integer day
up to 1000 in absolute value, `persianToJulianDayDouble` and
`persianToJulianDay` agree. -/
theorem persianToJulianDayDouble_eq_exact (year m d : ℤ) (hy : |year| ≤ 500000)
    (h1 : 1 ≤ m) (h13 : m ≤ 13) (hd : |d| ≤ 1000) :
    persianToJulianDayDouble year m d = persianToJulianDay year m d := by
  rw [persianToJulianDayDouble_eq year m d (le_trans hy (by norm_num)) h1 h13 hd,
    persianToJulianDay_eq year m d h1 h13, leapTermDouble_eq year hy]
  rfl

/-- An integer below `2 ^ 53` in absolute value prints as its decimal digits,
with a leading `-` when negative. -/
theorem numberToString_intCast (n : ℤ) (h : |n| < 2 ^ 53) :
    numberToString (n : ℚ) = toString n := by
  obtain ⟨hlo, hhi⟩ := abs_lt.1 h
  unfold numberToString
  rcases n with m | m
  · rcases Nat.eq_zero_or_pos m with hm | hm
    · subst hm
      simp
      rfl
    · have hne : ((Int.ofNat m : ℤ) : ℚ) ≠ 0 := by
        simp only [Int.ofNat_eq_coe, Int.cast_natCast, ne_eq, Nat.cast_eq_zero]
        omega
      have hnn : ¬ ((Int.ofNat m : ℤ) : ℚ) < 0 := by
        simp only [Int.ofNat_eq_coe, Int.cast_natCast, not_lt]
        positivity
      rw [if_neg hne, if_neg hnn]
      unfold positiveToString
      have hm53 : m < 2 ^ 53 := by
        have : (m : ℤ) < 2 ^ 53 := hhi
        exact_mod_cast this
      simp only [Int.ofNat_eq_coe, Int.cast_natCast, Rat.den_natCast, Rat.num_natCast,
        Int.natAbs_ofNat, hm53, and_self, if_true]
      rfl
  · have hne : ((Int.negSucc m : ℤ) : ℚ) ≠ 0 := by
      simp only [ne_eq, Int.cast_eq_zero]
      exact Int.negSucc_ne_zero m
    have hneg : ((Int.negSucc m : ℤ) : ℚ) < 0 := by
      simp only [Int.cast_lt_zero]
      exact Int.negSucc_lt_zero m
    rw [if_neg hne, if_pos hneg]
    unfold positiveToString
    have hm53 : m + 1 < 2 ^ 53 := by
      have : -(2 ^ 53 : ℤ) < Int.negSucc m := hlo
      rw [Int.negSucc_eq] at this
      omega
    have hcast : -((Int.negSucc m : ℤ) : ℚ) = ((m + 1 : ℕ) : ℚ) := by
      rw [Int.negSucc_eq]
      push_cast
      ring
    rw [hcast]
    simp only [Rat.den_natCast, Rat.num_natCast, Int.natAbs_ofNat, hm53, and_self, if_true]
    rfl

/-- On these integers the digit rule of `shortestDigits` gives the decimal
digits that the first branch of `positiveToString` prints. -/
theorem shortestDigits_samples :
    layoutDigits (shortestDigits 1).1 (shortestDigits 1).2 = Nat.repr 1 ∧
      layoutDigits (shortestDigits 30).1 (shortestDigits 30).2 = Nat.repr 30 ∧
      layoutDigits (shortestDigits 1402).1 (shortestDigits 1402).2 = Nat.repr 1402 ∧
      layoutDigits (shortestDigits 2460592).1 (shortestDigits 2460592).2 = Nat.repr 2460592 ∧
      layoutDigits (shortestDigits 9007199254740991).1 (shortestDigits 9007199254740991).2 =
        Nat.repr 9007199254740991 := by
  decide!

/-- C13 as stated fails on the code: with year `10 ^ 21` the numeric format is
`1e+21/1/1`, not the decimal digits `1000000000000000000000/1/1`. -/
theorem formatPersianDate_numeric_large :
    formatPersianDate ⟨1000000000000000000000, 1, 1⟩ (some "numeric") = "1e+21/1/1" ∧
      toString (1000000000000000000000 : ℤ) ++ "/" ++ toString (1 : ℤ) ++ "/" ++
        toString (1 : ℤ) = "1000000000000000000000/1/1" ∧
      formatPersianDate ⟨1000000000000000000000, 1, 1⟩ (some "numeric") ≠
        toString (1000000000000000000000 : ℤ) ++ "/" ++ toString (1 : ℤ) ++ "/" ++
          toString (1 : ℤ) := by
  decide!

/-- C13, amended: for every Persian date with integer components below `2 ^ 53`
in absolute value, `formatPersianDate date 'numeric'` is the decimal rendering
of the year, then `/`, then the month, then `/`, then the day, with no padding;
for `{1402, 1, 1}` it is `1402/1/1`. -/
theorem formatPersianDate_numeric :
    (∀ year month day : ℤ, |year| < 2 ^ 53 → |month| < 2 ^ 53 → |day| < 2 ^ 53 →
      formatPersianDate ⟨year, month, day⟩ (some "numeric") =
        toString year ++ "/" ++ toString month ++ "/" ++ toString day) ∧
      formatPersianDate ⟨1402, 1, 1⟩ (some "numeric") = "1402/1/1" := by
  constructor
  · intro year month day hy hm hd
    simp [formatPersianDate, numberToString_intCast year hy, numberToString_intCast month hm,
      numberToString_intCast day hd]
  · decide!

/-- C13, amended, at `{1402, 7, 15}`. -/
theorem formatPersianDate_numeric_witness :
    formatPersianDate ⟨1402, 7, (15 : ℤ)⟩ (some "numeric") =
      toString (1402 : ℤ) ++ "/" ++ toString (7 : ℤ) ++ "/" ++ toString (15 : ℤ) :=
  formatPersianDate_numeric.1 1402 7 15 (by decide) (by decide) (by decide)

/-- C14: for every Persian date with a month from 1 to 12, the formats `long`,
`short` and the omitted format all give the same string: the day, a space, the
entry `month - 1` of the table of 12 month names, a space, the year; for
`{1402, 1, 1}` that is `1 `, the first month name, then ` 1402`. -/
theorem formatPersianDate_long_short (p : PersianDate) (h1 : 1 ≤ p.month) (h12 : p.month ≤ 12) :
    (∃ name, arrayGetString monthNames (p.month - 1) = some name ∧
      formatPersianDate p (some "long") =
        numberToString p.day ++ " " ++ name ++ " " ++ numberToString p.year ∧
      formatPersianDate p (some "short") =
        numberToString p.day ++ " " ++ name ++ " " ++ numberToString p.year ∧
      formatPersianDate p none =
        numberToString p.day ++ " " ++ name ++ " " ++ numberToString p.year) ∧
      monthNames.length = 12 ∧ monthNames.head? = some "فروردین" ∧
      formatPersianDate ⟨1402, 1, 1⟩ (some "long") = "1 " ++ "فروردین" ++ " 1402" := by
  obtain ⟨name, hname⟩ := arrayGetString_monthNames p.month h1 h12
  refine ⟨⟨name, hname, ?_, ?_, ?_⟩, by decide, by decide, by decide!⟩ <;>
    simp [formatPersianDate, hname]

/-- C14 at `{1402, 7, 15}`: the three formats agree. -/
theorem formatPersianDate_long_short_witness :
    ∃ name, arrayGetString monthNames (7 - 1) = some name ∧
      formatPersianDate ⟨1402, 7, 15⟩ (some "long") =
        numberToString 15 ++ " " ++ name ++ " " ++ numberToString ((1402 : ℤ) : ℚ) ∧
      formatPersianDate ⟨1402, 7, 15⟩ (some "short") =
        numberToString 15 ++ " " ++ name ++ " " ++ numberToString ((1402 : ℤ) : ℚ) ∧
      formatPersianDate ⟨1402, 7, 15⟩ none =
        numberToString 15 ++ " " ++ name ++ " " ++ numberToString ((1402 : ℤ) : ℚ) :=
  (formatPersianDate_long_short ⟨1402, 7, 15⟩ (by decide) (by decide)).1

end PersianCalendar
